import Mathlib

/-!
Verification of the deterministic detection engine of the
`bias-fallacy-detector` repository (`RuleBasedDetector`, the validation,
explanation, and framing agents, and the `BiasDetectionWorkflow` pipeline).

Strings are modelled as `List Char`.  The repository compiles every pattern
with the JavaScript `"i"` flag and, in the data shipped with the repository,
patterns are matched by `String.prototype.match` which returns the first
occurrence; the matcher is modelled here as a case-insensitive first
occurrence search (`firstIdx` on case-folded strings), returning the
0-based character offset and the matched slice of the original sentence.
Rational numbers stand for the JavaScript floating point confidences; all
constants of the source (0.5, 0.2, 0.4, 0.05, 0.1, 0.03, 0.02, 0.07,
0.65, 0.95) are exact binary/decimal fractions, so `ℚ` reproduces the
source arithmetic faithfully on the claims considered here.
-/

namespace BiasFallacy

abbrev Str := List Char

/-- Case folding used by the `"i"` regex flag: `toLowerCase` per character. -/
def lowerStr (s : Str) : Str := s.map Char.toLower

/-- Index of the first occurrence of `pat` in `s` (both already case folded):
models the search performed by `String.prototype.match` with a non-global
regex built from a literal pattern. -/
def firstIdx (pat : Str) : Str → Option Nat
  | [] => if pat.isPrefixOf ([] : Str) then some 0 else none
  | c :: rest =>
    if pat.isPrefixOf (c :: rest) then some 0
    else (firstIdx pat rest).map (· + 1)

/-- `sentence.match(new RegExp(pat, "i"))`, reduced to the data the detector
reads from the JS match object: the 0-based index of the first occurrence
and `match[0]`, the matched slice of the original (non-folded) sentence. -/
def jsMatchI (pat s : Str) : Option (Nat × Str) :=
  (firstIdx (lowerStr pat) (lowerStr s)).map fun i => (i, (s.drop i).take pat.length)

/-- `new RegExp(pat, "i").test(s)`. -/
def testI (pat s : Str) : Bool := (firstIdx (lowerStr pat) (lowerStr s)).isSome

/-- Specification-side predicate: the pattern occurs (case-insensitively) in
the sentence at offset `i`. -/
def occursAtB (pat s : Str) (i : Nat) : Bool :=
  (lowerStr pat).isPrefixOf ((lowerStr s).drop i)

/-- `s.substring(a, b)` of JavaScript: indices clamped to the string bounds
and swapped when out of order. -/
def jsSubstring (s : Str) (a b : Nat) : Str :=
  ((s.drop (min (min a s.length) (min b s.length))).take
    (max (min a s.length) (min b s.length) - min (min a s.length) (min b s.length)))

/-- `s.includes(sub)` of JavaScript: substring containment. -/
def includesB (s sub : Str) : Bool := (firstIdx sub s).isSome

/-- `lowerSentence.includes(term.toLowerCase())` where
`lowerSentence = sentence.toLowerCase()`. -/
def includesI (sentence term : Str) : Bool :=
  includesB (lowerStr sentence) (lowerStr term)

/-! ## Data model (`utils/types.ts`) -/

/-- `IPatternWithWeight`.  At runtime both `weight` and `description` can be
absent (legacy string-pattern libraries), hence `Option`. -/
structure PatternWithWeight where
  regex : Str
  weight : Option ℚ
  description : Option Str
deriving DecidableEq, Repr

/-- `ICompiledPattern` with the compiled `RegExp` represented by its source
text (the matcher semantics lives in `jsMatchI`). -/
structure CompiledPattern where
  regex : Str
  weight : Option ℚ
  description : Option Str
deriving DecidableEq, Repr

/-- `IExclusion`. -/
structure Exclusion where
  pattern : Str
  reason : Str
deriving DecidableEq, Repr

/-- `IContextClues`. -/
structure ContextClues where
  positive : Option (List Str)
  negative : Option (List Str)
deriving DecidableEq, Repr

/-- `IBiasSpecificConfidenceModifiers`. -/
structure BiasSpecificModifiers where
  bias_specific_terms : Option (List Str)
  high_confidence_terms : Option (List Str)
  negation_terms : Option (List Str)
  uncertainty_terms : Option (List Str)
deriving DecidableEq, Repr

/-- `IGlobalConfidenceModifiers`. -/
structure GlobalModifiers where
  high_confidence_terms : Option (List Str)
  negation_terms : Option (List Str)
  uncertainty_terms : Option (List Str)
  hedging_terms : Option (List Str)
deriving DecidableEq, Repr

/-- `IBiasOrFallacy` (the `examples` field is informational only and not
read by any function verified here). -/
structure BiasOrFallacy where
  name : Str
  description : Str
  patterns : List PatternWithWeight
  context_clues : Option ContextClues
  confidence_modifiers : Option BiasSpecificModifiers
  exclusions : Option (List Exclusion)
deriving DecidableEq, Repr

/-- `ICompiledBiasOrFallacy`. -/
structure CompiledBiasOrFallacy where
  name : Str
  description : Str
  patterns : List PatternWithWeight
  context_clues : Option ContextClues
  confidence_modifiers : Option BiasSpecificModifiers
  exclusions : Option (List Exclusion)
  compiledPatterns : List CompiledPattern
deriving DecidableEq, Repr

/-- `IBiasesFallaciesData`. -/
structure BiasesFallaciesData where
  global_confidence_modifiers : Option GlobalModifiers
  biases : List BiasOrFallacy
  fallacies : List BiasOrFallacy
deriving DecidableEq, Repr

/-- `IPatternMatch`.  `pattern` holds the source text of the regex. -/
structure PatternMatch where
  pattern : Str
  matched : Str
  index : Nat
  length : Nat
  weight : Option ℚ
deriving DecidableEq, Repr

/-- `TCognitivePatternType`. -/
inductive PatternType
  | bias
  | fallacy
deriving DecidableEq, Repr

/-- `IDetection`. -/
structure Detection where
  type : PatternType
  name : Str
  description : Str
  «matches» : List PatternMatch
  confidence : ℚ
deriving DecidableEq, Repr

/-- `ISentenceDetection`. -/
structure SentenceDetection where
  sentence : Str
  sentenceIndex : Nat
  detections : List Detection
deriving DecidableEq, Repr

/-- `TDetectionFilter`. -/
inductive DetectionFilter
  | all
  | biases
  | fallacies
deriving DecidableEq, Repr

/-- `IPatternSummary`. -/
structure PatternSummary where
  name : Str
  description : Str
  count : Nat
  confidence : ℚ
deriving DecidableEq, Repr

/-- `IAnalysisSummary`. -/
structure AnalysisSummary where
  biasesFound : List PatternSummary
  fallaciesFound : List PatternSummary
deriving DecidableEq, Repr

/-! ## `RuleBasedDetector` -/

/-- The detector state after construction: compiled data plus the global
modifiers (`global_confidence_modifiers || {}`). -/
structure Detector where
  globalModifiers : GlobalModifiers
  biases : List CompiledBiasOrFallacy
  fallacies : List CompiledBiasOrFallacy
deriving Repr

/-- `compilePatterns`: spread the item and add `compiledPatterns`, one
case-insensitive compiled pattern per source pattern. -/
def compilePatterns (items : List BiasOrFallacy) : List CompiledBiasOrFallacy :=
  items.map fun item =>
    { name := item.name
      description := item.description
      patterns := item.patterns
      context_clues := item.context_clues
      confidence_modifiers := item.confidence_modifiers
      exclusions := item.exclusions
      compiledPatterns := item.patterns.map fun p =>
        { regex := p.regex, weight := p.weight, description := p.description } }

/-- The constructor of `RuleBasedDetector`. -/
def mkDetector (data : BiasesFallaciesData) : Detector :=
  { globalModifiers := data.global_confidence_modifiers.getD ⟨none, none, none, none⟩
    biases := compilePatterns data.biases
    fallacies := compilePatterns data.fallacies }

/-- `matchPatterns`: for each compiled pattern, `sentence.match(regex)`; on a
hit push `{pattern, matched, index, length, weight}`. -/
def matchPatterns (sentence : Str) (item : CompiledBiasOrFallacy) : List PatternMatch :=
  item.compiledPatterns.filterMap fun p =>
    (jsMatchI p.regex sentence).map fun m =>
      { pattern := p.regex
        matched := m.2
        index := m.1
        length := m.2.length
        weight := p.weight }

/-- `isExcluded`: `!item.exclusions → false`, otherwise some exclusion
pattern tests true (each compiled with the `"i"` flag on the spot). -/
def isExcluded (sentence : Str) (item : CompiledBiasOrFallacy) : Bool :=
  match item.exclusions with
  | none => false
  | some exs => exs.any fun e => testI e.pattern sentence

/-- `isClueNearMatch`: case-insensitive containment of the clue in the
character window `[matchStart - windowSize*5, matchEnd + windowSize*5]`
clipped to the sentence (`Math.max(0, ·)` is the truncated `Nat`
subtraction). -/
def isClueNearMatch (sentence : Str) (m : PatternMatch) (clue : Str)
    (windowSize : Nat := 5) : Bool :=
  includesB
    (lowerStr (jsSubstring sentence (m.index - windowSize * 5)
      (min sentence.length (m.index + m.length + windowSize * 5))))
    (lowerStr clue)

/-- `matches.some(match => this.isClueNearMatch(sentence, match, term))`,
the proximity test shared by clue and negation handling. -/
def nearAny (sentence : Str) (ms : List PatternMatch) (clue : Str) : Bool :=
  ms.any fun m => isClueNearMatch sentence m clue 5

/-- `match.weight || 0.5`: JavaScript `||` makes both an absent weight and a
weight equal to `0` fall back to `0.5`. -/
def matchWeight (m : PatternMatch) : ℚ :=
  match m.weight with
  | none => 1/2
  | some w => if w = 0 then 1/2 else w

/-- The summed weighted score of `calculateConfidence`. -/
def weightedScore (ms : List PatternMatch) : ℚ :=
  (ms.map matchWeight).sum

/-- `applyContextClues`: `+0.05` per positive clue near a match, `-0.05` per
negative clue near a match. -/
def applyContextClues (confidence : ℚ) (sentence : Str)
    (ms : List PatternMatch) (item : CompiledBiasOrFallacy) : ℚ :=
  let c₁ :=
    match item.context_clues with
    | none => confidence
    | some cc =>
      match cc.positive with
      | none => confidence
      | some pos =>
        confidence +
          ((pos.filter fun clue => nearAny sentence ms clue).length : ℚ) * (5/100)
  match item.context_clues with
  | none => c₁
  | some cc =>
    match cc.negative with
    | none => c₁
    | some neg =>
      c₁ -
        ((neg.filter fun clue => nearAny sentence ms clue).length : ℚ) * (5/100)

/-- `applyGlobalModifiers`: `+0.05` per global high-confidence term anywhere
in the sentence, `-0.1` per global negation term near a match, `-0.03` per
global uncertainty term anywhere, `-0.02` per global hedging term anywhere. -/
def applyGlobalModifiers (gm : GlobalModifiers) (confidence : ℚ) (sentence : Str)
    (ms : List PatternMatch) : ℚ :=
  let c₁ :=
    match gm.high_confidence_terms with
    | none => confidence
    | some ts => confidence + ((ts.filter (includesI sentence)).length : ℚ) * (5/100)
  let c₂ :=
    match gm.negation_terms with
    | none => c₁
    | some ts =>
      c₁ - ((ts.filter fun t => nearAny sentence ms t).length : ℚ) * (10/100)
  let c₃ :=
    match gm.uncertainty_terms with
    | none => c₂
    | some ts => c₂ - ((ts.filter (includesI sentence)).length : ℚ) * (3/100)
  match gm.hedging_terms with
  | none => c₃
  | some ts => c₃ - ((ts.filter (includesI sentence)).length : ℚ) * (2/100)

/-- `applyBiasSpecificModifiers`: `+0.07` per bias-specific term anywhere,
`+0.05` per high-confidence term anywhere, `-0.1` per negation term near a
match, `-0.03` per uncertainty term anywhere. -/
def applyBiasSpecificModifiers (confidence : ℚ) (sentence : Str)
    (ms : List PatternMatch) (modifiers : BiasSpecificModifiers) : ℚ :=
  let c₁ :=
    match modifiers.bias_specific_terms with
    | none => confidence
    | some ts => confidence + ((ts.filter (includesI sentence)).length : ℚ) * (7/100)
  let c₂ :=
    match modifiers.high_confidence_terms with
    | none => c₁
    | some ts => c₁ + ((ts.filter (includesI sentence)).length : ℚ) * (5/100)
  let c₃ :=
    match modifiers.negation_terms with
    | none => c₂
    | some ts =>
      c₂ - ((ts.filter fun t => nearAny sentence ms t).length : ℚ) * (10/100)
  match modifiers.uncertainty_terms with
  | none => c₃
  | some ts => c₃ - ((ts.filter (includesI sentence)).length : ℚ) * (3/100)

/-- The final line of `calculateConfidence`:
`Math.min(Math.max(0.1, confidence), 0.95)`. -/
def clampConfidence (c : ℚ) : ℚ := min (max (1/10) c) (19/20)

/-- The guarded definition-specific step of `calculateConfidence`:
`if (item.confidence_modifiers) confidence = applyBiasSpecificModifiers(...)`. -/
def applySpecificStep (c : ℚ) (sentence : Str) (ms : List PatternMatch)
    (item : CompiledBiasOrFallacy) : ℚ :=
  match item.confidence_modifiers with
  | none => c
  | some mods => applyBiasSpecificModifiers c sentence ms mods

/-- The adjustment pipeline of `calculateConfidence` from an already
accumulated running value: context clues, then global modifiers, then
definition-specific modifiers when present, then the clamp. -/
def adjustAndClamp (gm : GlobalModifiers) (base : ℚ) (sentence : Str)
    (ms : List PatternMatch) (item : CompiledBiasOrFallacy) : ℚ :=
  clampConfidence
    (applySpecificStep
      (applyGlobalModifiers gm (applyContextClues base sentence ms item) sentence ms)
      sentence ms item)

/-- `calculateConfidence`: base `0.5`, plus the weighted match contribution
`min(weightedScore * 0.2, 0.4)`, then the adjustment pipeline and the clamp. -/
def calculateConfidence (gm : GlobalModifiers) (ms : List PatternMatch)
    (sentence : Str) (item : CompiledBiasOrFallacy) : ℚ :=
  adjustAndClamp gm (1/2 + min (weightedScore ms * (2/10)) (4/10)) sentence ms item

/-- The whitespace class of JavaScript `String.prototype.trim` (the
characters relevant to this code base). -/
def isJsWhitespace (c : Char) : Bool :=
  c == ' ' || c == '\t' || c == '\n' || c == '\r' ||
  c == '\x0b' || c == '\x0c' || c == '\u00A0' || c == '\uFEFF'

/-- One category loop body of `detectInSentence`: keep a definition when it
has at least one pattern match and is not excluded. -/
def detectCategory (gm : GlobalModifiers) (defs : List CompiledBiasOrFallacy)
    (t : PatternType) (sentence : Str) : List Detection :=
  defs.filterMap fun item =>
    let ms := matchPatterns sentence item
    if ms.length > 0 && !(isExcluded sentence item) then
      some
        { type := t
          name := item.name
          description := item.description
          «matches» := ms
          confidence := calculateConfidence gm ms sentence item }
    else none

/-- `detectInSentence`.  The guard `!sentence || sentence.trim().length === 0`
is equivalent to every character being whitespace (an empty sentence
vacuously so). -/
def detectInSentence (det : Detector) (sentence : Str)
    (filter : DetectionFilter) : List Detection :=
  if sentence.all isJsWhitespace then []
  else
    (if filter = .all ∨ filter = .biases then
      detectCategory det.globalModifiers det.biases .bias sentence
    else []) ++
    (if filter = .all ∨ filter = .fallacies then
      detectCategory det.globalModifiers det.fallacies .fallacy sentence
    else [])

/-- `detectInSentence` called with a possibly absent (`null`) sentence: the
JavaScript guard `!sentence` returns `[]` before any processing. -/
def detectInSentenceOpt (det : Detector) (sentence : Option Str)
    (filter : DetectionFilter) : List Detection :=
  match sentence with
  | none => []
  | some s => detectInSentence det s filter

/-- `Math.min(0.95, c + 0.05)`, the reinforcement boost of `analyzeContext`. -/
def boostConf (c : ℚ) : ℚ := min (19/20) (c + 5/100)

/-- A detection with its confidence boosted. -/
def boostDetection (d : Detection) : Detection :=
  { d with confidence := boostConf d.confidence }

/-- Replace the confidence of the detection at position `k` by its boosted
value (the in-place mutation of one array element). -/
def boostAt : List Detection → Nat → List Detection
  | [], _ => []
  | d :: ds, 0 => boostDetection d :: ds
  | d :: ds, k + 1 => d :: boostAt ds k

/-- Position of the first detection of the same type and name
(`next.detections.find(d => d.type === c.type && d.name === c.name)`). -/
def findSameIdx (d : Detection) : List Detection → Option Nat
  | [] => none
  | e :: rest =>
    if e.type = d.type ∧ e.name = d.name then some 0
    else (findSameIdx d rest).map (· + 1)

/-- One step of the inner `forEach` of `analyzeContext`: detection `j` of the
current sentence looks for the first detection of the same type and name in
the next sentence; when found both confidences are boosted. -/
def pairStep (st : List Detection × List Detection) (j : Nat) :
    List Detection × List Detection :=
  match st.1[j]? with
  | none => st
  | some d =>
    match findSameIdx d st.2 with
    | none => st
    | some k => (boostAt st.1 j, boostAt st.2 k)

/-- The full inner `forEach` over one adjacent pair of sentences. -/
def processPair (cur next : List Detection) : List Detection × List Detection :=
  (List.range cur.length).foldl pairStep (cur, next)

/-- The outer `for` loop of `analyzeContext`: mutations to the next sentence
carry into the following iteration, so the pass is modelled by threading the
updated element forward. -/
def analyzeContextGo : List SentenceDetection → List SentenceDetection
  | [] => []
  | [s] => [s]
  | s₁ :: s₂ :: rest =>
    let p := processPair s₁.detections s₂.detections
    { s₁ with detections := p.1 } ::
      analyzeContextGo ({ s₂ with detections := p.2 } :: rest)
termination_by l => l.length
decreasing_by simp only [List.length_cons]; omega

/-- `analyzeContext`: inputs of length at most one are returned unchanged. -/
def analyzeContext (detections : List SentenceDetection) : List SentenceDetection :=
  if detections.length ≤ 1 then detections else analyzeContextGo detections

/-- `detectInText` with the sentence splitter passed as a collaborator. -/
def detectInText (det : Detector) (text : Str)
    (splitIntoSentences : Str → List Str) : List SentenceDetection :=
  if text.isEmpty then []
  else
    analyzeContext <|
      (splitIntoSentences text).enum.filterMap fun si =>
        let dets := detectInSentence det si.2 .all
        if dets.length > 0 then
          some { sentence := si.2, sentenceIndex := si.1, detections := dets }
        else none

/-- `detectInText` with a possibly absent (`null`) text. -/
def detectInTextOpt (det : Detector) (text : Option Str)
    (splitIntoSentences : Str → List Str) : List SentenceDetection :=
  match text with
  | none => []
  | some t => detectInText det t splitIntoSentences

/-! ## `generateSummary` -/

/-- One aggregation record of `biasesByName` / `fallaciesByName`. -/
structure Group where
  count : Nat
  confidence : ℚ
  description : Str
deriving DecidableEq, Repr

/-- Record update `byName[item.name]`: a missing key is initialised to
`{count: 0, confidence: 0, description}`, then `count += 1` and
`confidence = Math.max(confidence, item.confidence)`.  JavaScript objects
keep string keys in insertion order, modelled by an association list that
updates in place and appends new keys at the end. -/
def updateGroups (groups : List (Str × Group)) (name : Str) (desc : Str)
    (conf : ℚ) : List (Str × Group) :=
  match groups with
  | [] => [(name, { count := 1, confidence := max 0 conf, description := desc })]
  | (n, g) :: rest =>
    if n = name then
      (n, { g with count := g.count + 1, confidence := max g.confidence conf }) :: rest
    else (n, g) :: updateGroups rest name desc conf

/-- The nested `forEach` of `generateSummary`, splitting by detection type. -/
def summaryStep (st : List (Str × Group) × List (Str × Group)) (d : Detection) :
    List (Str × Group) × List (Str × Group) :=
  match d.type with
  | .bias => (updateGroups st.1 d.name d.description d.confidence, st.2)
  | .fallacy => (st.1, updateGroups st.2 d.name d.description d.confidence)

/-- Stable insertion used to model `Array.prototype.sort` (stable, ES2019+)
with comparator `(a, b) => b.count - a.count`: a new element goes after every
already placed element of greater or equal count. -/
def insertByCount (x : PatternSummary) : List PatternSummary → List PatternSummary
  | [] => [x]
  | y :: ys => if y.count ≥ x.count then y :: insertByCount x ys else x :: y :: ys

/-- Stable sort by descending `count` (elements processed in array order). -/
def sortByCountDesc (l : List PatternSummary) : List PatternSummary :=
  l.foldl (fun acc x => insertByCount x acc) []

/-- `Object.entries(byName).map(([name, data]) => ({...}))`. -/
def summaryEntries (groups : List (Str × Group)) : List PatternSummary :=
  groups.map fun ng =>
    { name := ng.1
      description := ng.2.description
      count := ng.2.count
      confidence := ng.2.confidence }

/-- `generateSummary`. -/
def generateSummary (detections : List SentenceDetection) : AnalysisSummary :=
  if detections.isEmpty then { biasesFound := [], fallaciesFound := [] }
  else
    { biasesFound :=
        sortByCountDesc (summaryEntries
          ((detections.flatMap fun sd => sd.detections).foldl summaryStep ([], [])).1)
      fallaciesFound :=
        sortByCountDesc (summaryEntries
          ((detections.flatMap fun sd => sd.detections).foldl summaryStep ([], [])).2) }

/-- `generateSummary` with a possibly absent (`null`) input, which the guard
`!detections` sends to the empty summary. -/
def generateSummaryOpt (detections : Option (List SentenceDetection)) : AnalysisSummary :=
  match detections with
  | none => { biasesFound := [], fallaciesFound := [] }
  | some ds => generateSummary ds

/-! ## Agents and pipeline (`ValidationAgent`, `FramingAnalysisAgent`,
`ExplanationAgent`, `LLMDetector`, `BiasDetectionWorkflow`)

The network-bound LLM call of each agent is an external collaborator; its
outcome is a parameter of type `Except Unit α` (`.error` is the `catch`
branch of the source). -/

/-- `ILLMDetection`. -/
structure LLMDetection where
  type : PatternType
  name : Str
  description : Str
  sentence : Str
  sentenceIndex : Nat
  quotedText : Option Str
  reasoning : Option Str
  confidence : ℚ
  isSubtle : Bool
deriving DecidableEq, Repr

/-- Source tag of a merged detection. -/
inductive SourceDetector
  | ruleBased
  | llm
deriving DecidableEq, Repr

/-- A flattened detection as built inside `validateDetections` (the spread of
an `IDetection` plus sentence, index, source and reasoning). -/
structure FlatDetection where
  type : PatternType
  name : Str
  description : Str
  «matches» : List PatternMatch
  confidence : ℚ
  sentence : Str
  sentenceIndex : Nat
  sourceDetector : SourceDetector
  reasoning : Option Str
  quotedText : Option Str
deriving DecidableEq, Repr

/-- `IValidatedDetection`. -/
structure ValidatedDetection extends FlatDetection where
  isValidated : Bool
  validationReasoning : Str
  validationScore : ℚ
deriving DecidableEq, Repr

/-- The reasoning string attached to a flattened rule-based detection:
`Pattern match: ${d.matches?.[0]?.matched || 'detected'}` (an empty matched
slice is falsy and also falls back to `detected`). -/
def ruleReasoning (d : Detection) : Str :=
  "Pattern match: ".toList ++
    (match d.«matches» with
     | [] => "detected".toList
     | m :: _ => if m.matched = [] then "detected".toList else m.matched)

/-- `flattenRuleBasedDetections`. -/
def flattenRuleBasedDetections (detections : List SentenceDetection) :
    List FlatDetection :=
  detections.flatMap fun sd =>
    sd.detections.map fun d =>
      { type := d.type
        name := d.name
        description := d.description
        «matches» := d.«matches»
        confidence := d.confidence
        sentence := sd.sentence
        sentenceIndex := sd.sentenceIndex
        sourceDetector := .ruleBased
        reasoning := some (ruleReasoning d)
        quotedText := none }

/-- The flattening of LLM detections inside `validateDetections`
(`{...d, sourceDetector: 'llm'}`; LLM detections carry no pattern matches). -/
def flattenLLMDetections (llmDetections : List LLMDetection) : List FlatDetection :=
  llmDetections.map fun d =>
    { type := d.type
      name := d.name
      description := d.description
      «matches» := []
      confidence := d.confidence
      sentence := d.sentence
      sentenceIndex := d.sentenceIndex
      sourceDetector := .llm
      reasoning := d.reasoning
      quotedText := d.quotedText }

/-- One entry of the JSON the validation collaborator returns. -/
structure ValidationVerdict where
  index : Nat
  isValid : Bool
  reasoning : Str
deriving DecidableEq, Repr

/-- The fallback reasoning string of the validation `catch` branch. -/
def autoValidatedReasoning : Str :=
  "Auto-validated based on high confidence (fallback)".toList

/-- `ValidationAgent.validateDetections`.  On collaborator success, keep the
verdicts marked valid whose index lands in the merged list, with validation
score `0.85`; on failure (the `catch` branch), keep every merged detection of
confidence at least `0.65`, auto-validated with its own confidence as
score. -/
def validateDetections (ruleBasedDetections : List SentenceDetection)
    (llmDetections : List LLMDetection)
    (outcome : Except Unit (List ValidationVerdict)) : List ValidatedDetection :=
  let allDetections :=
    flattenRuleBasedDetections ruleBasedDetections ++ flattenLLMDetections llmDetections
  if allDetections.isEmpty then []
  else
    match outcome with
    | .ok verdicts =>
      verdicts.filterMap fun v =>
        if v.isValid then
          (allDetections[v.index]?).map fun d =>
            { toFlatDetection := d
              isValidated := true
              validationReasoning := v.reasoning
              validationScore := 85/100 }
        else none
    | .error _ =>
      (allDetections.filter fun d => decide ((13 : ℚ)/20 ≤ d.confidence)).map fun d =>
        { toFlatDetection := d
          isValidated := true
          validationReasoning := autoValidatedReasoning
          validationScore := d.confidence }

/-- `IArticleAnalysis.overallTone`. -/
inductive Tone
  | neutral
  | leftLeaning
  | rightLeaning
  | heavilyBiased
deriving DecidableEq, Repr

/-- `IEmotionalLanguageAnalysis`. -/
structure EmotionalLanguage where
  fearWords : List Str
  outrageTriggers : List Str
  loadedTerms : List Str
  overallEmotionalIntensity : ℚ
deriving DecidableEq, Repr

/-- `ISourceCredibility`. -/
structure SourceCredibility where
  sourcesListed : List Str
  sourceTypes : List Str
  balanceScore : ℚ
  concerns : List Str
deriving DecidableEq, Repr

/-- `IArticleAnalysis`. -/
structure ArticleAnalysis where
  overallTone : Tone
  confidenceInTone : ℚ
  primaryIntent : Str
  credibilityScore : ℚ
  manipulationTechniques : List Str
  omittedPerspectives : List Str
  framingCategory : Str
  emotionalLanguage : EmotionalLanguage
  sourceCredibility : SourceCredibility
deriving DecidableEq, Repr

/-- The fixed neutral analysis returned by the framing `catch` branch. -/
def defaultArticleAnalysis : ArticleAnalysis :=
  { overallTone := .neutral
    confidenceInTone := 1/2
    primaryIntent := "Unable to determine".toList
    credibilityScore := 5
    manipulationTechniques := []
    omittedPerspectives := []
    framingCategory := "neutral_reporting".toList
    emotionalLanguage :=
      { fearWords := []
        outrageTriggers := []
        loadedTerms := []
        overallEmotionalIntensity := 1/2 }
    sourceCredibility :=
      { sourcesListed := []
        sourceTypes := []
        balanceScore := 1/2
        concerns := [] } }

/-- `FramingAnalysisAgent.analyzeArticleFraming`, reduced to its outcome
handling: the parsed collaborator response on success, the fixed neutral
default on failure. -/
def analyzeArticleFraming (outcome : Except Unit ArticleAnalysis) : ArticleAnalysis :=
  match outcome with
  | .ok a => a
  | .error _ => defaultArticleAnalysis

/-- `IExplanation`. -/
structure Explanation where
  biasOrFallacyName : Str
  simpleExplanation : Str
  whyProblematic : Str
  inContext : Str
  alternativeFraming : Option Str
deriving DecidableEq, Repr

/-- `Array.from(new Set(list))`: order-preserving deduplication keeping the
first occurrence. -/
def dedupNames (l : List Str) : List Str :=
  l.foldl (fun acc n => if n ∈ acc then acc else acc ++ [n]) []

/-- `ExplanationAgent.getBiasConfig`. -/
def getBiasConfig (data : BiasesFallaciesData) (name : Str) : Option BiasOrFallacy :=
  match data.biases.find? fun b => decide (b.name = name) with
  | some b => some b
  | none => data.fallacies.find? fun f => decide (f.name = name)

/-- The static fallback of `explainBias` (its `catch` branch). -/
def fallbackExplanation (data : BiasesFallaciesData) (name : Str)
    (ex : ValidatedDetection) : Explanation :=
  { biasOrFallacyName := name
    simpleExplanation :=
      match getBiasConfig data name with
      | some b => b.description
      | none => "A cognitive bias was detected.".toList
    whyProblematic := "This can lead to distorted reasoning and manipulation.".toList
    inContext :=
      "This bias appears in: \"".toList ++ ex.sentence ++ "\"".toList
    alternativeFraming := none }

/-- `ExplanationAgent.generateExplanations`: one explanation per distinct
detection name (first-occurrence order, as a JavaScript `Map` iterates in
insertion order), explained from the highest-confidence example
(`Array.prototype.reduce` keeps the earliest maximum).  `oracle` is the
per-name collaborator outcome. -/
def generateExplanations (data : BiasesFallaciesData)
    (detections : List ValidatedDetection)
    (oracle : Str → Except Unit Explanation) : List (Str × Explanation) :=
  (dedupNames (detections.map fun d => d.name)).filterMap fun name =>
    match detections.filter fun d => decide (d.name = name) with
    | [] => none
    | d :: ds =>
      let best := ds.foldl (fun b c => if c.confidence > b.confidence then c else b) d
      match oracle name with
      | .ok e => some (name, e)
      | .error _ => some (name, fallbackExplanation data name best)

/-- Severity classification of `createHighlightedSegments`. -/
inductive Severity
  | low
  | medium
  | high
deriving DecidableEq, Repr

/-- `IHighlightedSegment`. -/
structure HighlightedSegment where
  text : Str
  startIndex : Nat
  endIndex : Nat
  detections : List ValidatedDetection
  severity : Severity
deriving DecidableEq, Repr

/-- `high` at confidence `≥ 0.8`, `medium` at `≥ 0.6`, else `low`. -/
def severityOf (c : ℚ) : Severity :=
  if c ≥ 8/10 then .high else if c ≥ 6/10 then .medium else .low

/-- Stable insertion for `segments.sort((a, b) => a.startIndex - b.startIndex)`. -/
def insertByStart (x : HighlightedSegment) :
    List HighlightedSegment → List HighlightedSegment
  | [] => [x]
  | y :: ys => if y.startIndex ≤ x.startIndex then y :: insertByStart x ys else x :: y :: ys

/-- `createHighlightedSegments`: locate each detection sentence by first
(case-sensitive) occurrence in the raw text, classify severity, sort by start
offset. -/
def createHighlightedSegments (text : Str) (detections : List ValidatedDetection) :
    List HighlightedSegment :=
  (detections.filterMap fun d =>
    (firstIdx d.sentence text).map fun i =>
      { text := d.sentence
        startIndex := i
        endIndex := i + d.sentence.length
        detections := [d]
        severity := severityOf d.confidence }).foldl
    (fun acc x => insertByStart x acc) []

/-- The tone strings rendered into the summary line. -/
def toneText : Tone → Str
  | .neutral => "neutral".toList
  | .leftLeaning => "left-leaning".toList
  | .rightLeaning => "right-leaning".toList
  | .heavilyBiased => "heavily-biased".toList

/-- The data interpolated into the executive summary string of
`formatOutputNode` (the string rendering itself is presentation). -/
structure SummaryLine where
  tone : Str
  credibility : ℚ
  detectionCount : Nat
  biasCount : Nat
  fallacyCount : Nat
  primaryIntent : Option Str
deriving DecidableEq, Repr

/-- `BiasDetectionWorkflow.generateSummary`. -/
def buildSummaryLine (validated : List ValidatedDetection)
    (analysis : ArticleAnalysis) : SummaryLine :=
  { tone := toneText analysis.overallTone
    credibility := analysis.credibilityScore
    detectionCount := validated.length
    biasCount := (validated.filter fun d => decide (d.type = PatternType.bias)).length
    fallacyCount := (validated.filter fun d => decide (d.type = PatternType.fallacy)).length
    primaryIntent :=
      if analysis.primaryIntent = [] then none else some analysis.primaryIntent }

/-- `IFinalOutput`. -/
structure FinalOutput where
  detections : List ValidatedDetection
  explanations : List Explanation
  articleAnalysis : ArticleAnalysis
  highlightedText : List HighlightedSegment
  summary : SummaryLine
deriving Repr

/-- One analysis request: the raw text, the sentence splitter collaborator,
and the pattern library. -/
structure PipelineInput where
  rawText : Str
  splitter : Str → List Str
  data : BiasesFallaciesData

/-- The outcomes of the four external collaborator calls of one run. -/
structure CollaboratorOutcomes where
  llmDetect : Except Unit (List LLMDetection)
  validate : Except Unit (List ValidationVerdict)
  explain : Str → Except Unit Explanation
  framing : Except Unit ArticleAnalysis

/-- `LLMDetector.detectSubtleBiases` outcome handling: parsed detections on
success, the empty list on failure (its `catch` branch). -/
def llmDetectStage (outcome : Except Unit (List LLMDetection)) : List LLMDetection :=
  match outcome with
  | .ok l => l
  | .error _ => []

/-- The run every collaborator of which fails. -/
def allFailOutcomes : CollaboratorOutcomes :=
  { llmDetect := .error ()
    validate := .error ()
    explain := fun _ => .error ()
    framing := .error () }

/-- The `BiasDetectionWorkflow` state sequence
`preprocess → {ruleBasedDetection, llmDetection} → validation →
generateExplanations → analyzeFraming → formatOutput`, with each stage
reading the accumulated state. -/
def runPipeline (inp : PipelineInput) (oc : CollaboratorOutcomes) : FinalOutput :=
  let det := mkDetector inp.data
  let ruleBasedDetections := detectInText det inp.rawText inp.splitter
  let llmDetections := llmDetectStage oc.llmDetect
  let validated := validateDetections ruleBasedDetections llmDetections oc.validate
  let explanations := generateExplanations inp.data validated oc.explain
  let analysis := analyzeArticleFraming oc.framing
  { detections := validated
    explanations := explanations.map fun p => p.2
    articleAnalysis := analysis
    highlightedText := createHighlightedSegments inp.rawText validated
    summary := buildSummaryLine validated analysis }

/-! ## Lemmas about the matching engine -/

theorem bool_eq_false {b : Bool} (h : ¬ b = true) : b = false := by
  cases b
  · rfl
  · exact absurd rfl h

theorem firstIdx_some_spec (pat : Str) :
    ∀ (s : Str) (j : Nat), firstIdx pat s = some j →
      pat.isPrefixOf (s.drop j) = true ∧
        ∀ k, k < j → pat.isPrefixOf (s.drop k) = false := by
  intro s
  induction s with
  | nil =>
    intro j h
    unfold firstIdx at h
    split at h
    · next hp =>
      cases h
      exact ⟨hp, fun k hk => absurd hk (Nat.not_lt_zero k)⟩
    · exact absurd h (by simp)
  | cons c rest ih =>
    intro j h
    unfold firstIdx at h
    split at h
    · next hp =>
      cases h
      exact ⟨hp, fun k hk => absurd hk (Nat.not_lt_zero k)⟩
    · next hp =>
      obtain ⟨j', hj', rfl⟩ := Option.map_eq_some'.mp h
      obtain ⟨h₁, h₂⟩ := ih j' hj'
      refine ⟨by rw [List.drop_succ_cons]; exact h₁, ?_⟩
      intro k hk
      cases k with
      | zero => rw [List.drop_zero]; exact bool_eq_false hp
      | succ k' => rw [List.drop_succ_cons]; exact h₂ k' (by omega)

theorem firstIdx_none_spec (pat : Str) :
    ∀ (s : Str), firstIdx pat s = none →
      ∀ k, pat.isPrefixOf (s.drop k) = false := by
  intro s
  induction s with
  | nil =>
    intro h k
    unfold firstIdx at h
    split at h
    · exact absurd h (by simp)
    · next hp => rw [List.drop_nil]; exact bool_eq_false hp
  | cons c rest ih =>
    intro h k
    unfold firstIdx at h
    split at h
    · exact absurd h (by simp)
    · next hp =>
      have hrest : firstIdx pat rest = none := by
        cases hfi : firstIdx pat rest with
        | none => rfl
        | some j => rw [hfi] at h; exact absurd h (by simp)
      cases k with
      | zero => rw [List.drop_zero]; exact bool_eq_false hp
      | succ k' => rw [List.drop_succ_cons]; exact ih hrest k'

theorem firstIdx_isSome_iff (pat s : Str) :
    (firstIdx pat s).isSome = true ↔ ∃ k, pat.isPrefixOf (s.drop k) = true := by
  constructor
  · intro h
    obtain ⟨j, hj⟩ := Option.isSome_iff_exists.mp h
    exact ⟨j, (firstIdx_some_spec pat s j hj).1⟩
  · rintro ⟨k, hk⟩
    cases hfi : firstIdx pat s with
    | some j => simp
    | none => exact absurd hk (by simp [firstIdx_none_spec pat s hfi k])

theorem exists_prefix_drop_bound (pat s : Str) :
    (∃ k, pat.isPrefixOf (s.drop k) = true) ↔
      ∃ k, k < s.length + 1 ∧ pat.isPrefixOf (s.drop k) = true := by
  constructor
  · rintro ⟨k, hk⟩
    by_cases h : k ≤ s.length
    · exact ⟨k, by omega, hk⟩
    · refine ⟨s.length, by omega, ?_⟩
      rw [List.drop_length]
      rwa [List.drop_eq_nil_of_le (by omega)] at hk
  · rintro ⟨k, _, hk⟩
    exact ⟨k, hk⟩

theorem jsSubstring_of_le (s : Str) (a b : Nat) (h : a ≤ b) :
    jsSubstring s a b = (s.drop a).take (b - a) := by
  unfold jsSubstring
  have hab : min a s.length ≤ min b s.length := by omega
  rw [Nat.min_eq_left hab, Nat.max_eq_right hab]
  by_cases ha : a ≤ s.length
  · rw [Nat.min_eq_left ha]
    by_cases hb : b ≤ s.length
    · rw [Nat.min_eq_left hb]
    · rw [Nat.min_eq_right (by omega)]
      have hlen : (s.drop a).length = s.length - a := List.length_drop a s
      rw [List.take_of_length_le (by omega), List.take_of_length_le (by omega)]
  · rw [Nat.min_eq_right (by omega), Nat.min_eq_right (by omega)]
    rw [List.drop_eq_nil_of_le (le_refl s.length), List.drop_eq_nil_of_le (by omega)]
    simp

theorem take_take_length {α : Type} (l : List α) (n : Nat) :
    l.take ((l.take n).length) = l.take n := by
  rw [List.length_take]
  by_cases h : n ≤ l.length
  · rw [Nat.min_eq_left h]
  · rw [Nat.min_eq_right (by omega), List.take_length, List.take_of_length_le (by omega)]

/-! ## C1 -/

/-- C1: for every list of pattern matches, every sentence, and every
definition (with any global and definition-specific modifiers and context
clues), `calculateConfidence` returns a value within `[0.1, 0.95]`
inclusive, including on an empty match list. -/
theorem calculateConfidence_bounds (gm : GlobalModifiers) (ms : List PatternMatch)
    (sentence : Str) (item : CompiledBiasOrFallacy) :
    1/10 ≤ calculateConfidence gm ms sentence item ∧
      calculateConfidence gm ms sentence item ≤ 19/20 := by
  unfold calculateConfidence adjustAndClamp clampConfidence
  exact ⟨le_min (le_max_left _ _) (by norm_num), min_le_right _ _⟩

/-! ## C2 -/

/-- The weighted-match step exactly as the specification words it: each match
contributes its pattern weight, with `0.5` as the default only when the
weight is unset. -/
def specWeightedScore (ms : List PatternMatch) : ℚ :=
  (ms.map fun m => m.weight.getD (1/2)).sum

/-- A match whose pattern weight is present but equal to zero. -/
def zeroWeightMatch : PatternMatch :=
  { pattern := [], matched := [], index := 0, length := 0, weight := some 0 }

/-- A definition with no clues, modifiers, or exclusions. -/
def trivialItem : CompiledBiasOrFallacy :=
  { name := [], description := [], patterns := [], context_clues := none,
    confidence_modifiers := none, exclusions := none, compiledPatterns := [] }

/-- The empty global modifier set (`global_confidence_modifiers || {}`). -/
def emptyGlobalModifiers : GlobalModifiers := ⟨none, none, none, none⟩

/-- C2, counterexample: on a single match whose weight is present and equal
to `0`, the implementation scores `0.5 + min(0.5*0.2, 0.4) = 0.6` (the
JavaScript `||` default kicks in), while the spec formula whose default
applies only to an unset weight yields `0.5 + min(0*0.2, 0.4) = 0.5`. -/
theorem calculateConfidence_specWeighted_cex :
    ¬ (calculateConfidence emptyGlobalModifiers [zeroWeightMatch] [] trivialItem =
        adjustAndClamp emptyGlobalModifiers
          (1/2 + min (specWeightedScore [zeroWeightMatch] * (2/10)) (4/10))
          [] [zeroWeightMatch] trivialItem) := by
  norm_num [calculateConfidence, adjustAndClamp, clampConfidence, applySpecificStep,
    applyGlobalModifiers, applyContextClues, weightedScore, specWeightedScore,
    matchWeight, zeroWeightMatch, trivialItem, emptyGlobalModifiers, min_def, max_def]

/-- C2 (amended): for every list of pattern matches, the weighted-match step
of `calculateConfidence` starts from base `0.5`, sums each match weight using
`0.5` as the default when the weight is unset **or equal to `0`** (both are
falsy to the source `||`), scales the sum by `0.2`, caps the contribution at
`0.4`, and adds it before any context-clue or modifier adjustment. -/
theorem calculateConfidence_weighted_step (gm : GlobalModifiers)
    (ms : List PatternMatch) (sentence : Str) (item : CompiledBiasOrFallacy) :
    calculateConfidence gm ms sentence item =
      adjustAndClamp gm
        (1/2 + min (((ms.map fun m =>
            match m.weight with
            | none => (1 : ℚ)/2
            | some w => if w = 0 then 1/2 else w).sum) * (2/10)) (4/10))
        sentence ms item := rfl

/-! ## C10 -/

/-- C10: a present-but-zero pattern weight is scored exactly like an unset
weight: it falls back to the default `0.5`, contributing `0.1` after the
`0.2` scaling, and the final confidence is unchanged by replacing the zero
weight with an absent one at any position of the match list. -/
theorem zeroWeight_scored_as_default (gm : GlobalModifiers) (sentence : Str)
    (item : CompiledBiasOrFallacy) (pre post : List PatternMatch)
    (m : PatternMatch) (h : m.weight = some 0) :
    matchWeight m = 1/2 ∧ matchWeight m * (2/10) = 1/10 ∧
    calculateConfidence gm (pre ++ m :: post) sentence item =
      calculateConfidence gm (pre ++ { m with weight := none } :: post) sentence item := by
  have hw : matchWeight m = 1/2 := by simp [matchWeight, h]
  refine ⟨hw, by rw [hw]; norm_num, ?_⟩
  have hnear : nearAny sentence (pre ++ m :: post) =
      nearAny sentence (pre ++ { m with weight := none } :: post) := by
    funext clue
    simp [nearAny, List.any_append, List.any_cons, isClueNearMatch]
  have hws : weightedScore (pre ++ m :: post) =
      weightedScore (pre ++ { m with weight := none } :: post) := by
    simp [weightedScore, List.map_append, List.map_cons, List.sum_append,
      List.sum_cons, hw, matchWeight, h]
  simp only [calculateConfidence, adjustAndClamp, applySpecificStep,
    applyGlobalModifiers, applyContextClues, applyBiasSpecificModifiers, hws, hnear]

/-- C10, witness: the zero-weight match at the concrete trivial input. -/
theorem zeroWeight_scored_as_default_witness :
    zeroWeightMatch.weight = some 0 ∧
    calculateConfidence emptyGlobalModifiers ([] ++ zeroWeightMatch :: []) [] trivialItem =
      calculateConfidence emptyGlobalModifiers
        ([] ++ { zeroWeightMatch with weight := none } :: []) [] trivialItem :=
  ⟨rfl, (zeroWeight_scored_as_default emptyGlobalModifiers [] trivialItem [] []
    zeroWeightMatch rfl).2.2⟩

/-! ## C9 -/

/-- C9: `detectInSentence` returns an empty list without error for every
empty, whitespace-only, or absent (`null`) sentence, and `detectInText`
returns an empty list for every absent or empty text. -/
theorem detect_empty_input_spec :
    (∀ det f, detectInSentenceOpt det none f = []) ∧
    (∀ det f, detectInSentence det [] f = []) ∧
    (∀ det f (s : Str), s.all isJsWhitespace = true → detectInSentence det s f = []) ∧
    (∀ det split, detectInTextOpt det none split = []) ∧
    (∀ det split, detectInText det [] split = []) := by
  refine ⟨fun _ _ => rfl, fun _ _ => rfl, fun det f s h => ?_, fun _ _ => rfl,
    fun _ _ => rfl⟩
  simp [detectInSentence, h]

/-- C9, witness: a concrete whitespace-only sentence on a concrete detector. -/
theorem detect_empty_input_witness :
    ((' ' :: '\t' :: ' ' :: []).all isJsWhitespace = true) ∧
    detectInSentence (mkDetector ⟨none, [], []⟩) (' ' :: '\t' :: ' ' :: []) .all = [] :=
  ⟨by decide, detect_empty_input_spec.2.2.1 (mkDetector ⟨none, [], []⟩) .all
    (' ' :: '\t' :: ' ' :: []) (by decide)⟩

/-! ## C3 -/

theorem length_filterMap_eq {α β : Type} (f : α → Option β) :
    ∀ l : List α, (l.filterMap f).length = (l.filter fun a => (f a).isSome).length := by
  intro l
  induction l with
  | nil => rfl
  | cons a t ih =>
    cases hfa : f a with
    | none => simp [List.filterMap_cons, List.filter_cons, hfa, ih]
    | some b => simp [List.filterMap_cons, List.filter_cons, hfa, ih]

theorem filterMap_map_sublist {α β γ : Type} (f : α → Option β) (g : β → γ)
    (h : α → γ) (hc : ∀ a b, f a = some b → g b = h a) :
    ∀ l : List α, ((l.filterMap f).map g).Sublist (l.map h) := by
  intro l
  induction l with
  | nil => simp
  | cons a t ih =>
    cases hfa : f a with
    | none =>
      rw [List.filterMap_cons, hfa, List.map_cons]
      exact ih.cons (h a)
    | some b =>
      rw [List.filterMap_cons, hfa, List.map_cons, List.map_cons, hc a b hfa]
      exact ih.cons₂ (h a)

theorem jsMatchI_some_spec (pat s : Str) (i : Nat) (t : Str)
    (h : jsMatchI pat s = some (i, t)) :
    t = (s.drop i).take pat.length ∧
    occursAtB pat s i = true ∧
    ∀ j, j < i → occursAtB pat s j = false := by
  unfold jsMatchI at h
  obtain ⟨j, hj, hpair⟩ := Option.map_eq_some'.mp h
  injection hpair with hji hti
  subst hji
  subst hti
  obtain ⟨h₁, h₂⟩ := firstIdx_some_spec (lowerStr pat) (lowerStr s) _ hj
  exact ⟨rfl, h₁, h₂⟩

theorem jsMatchI_isSome_iff (pat s : Str) :
    (jsMatchI pat s).isSome = true ↔
      ∃ k, k < s.length + 1 ∧ occursAtB pat s k = true := by
  unfold jsMatchI occursAtB
  rw [Option.isSome_map', firstIdx_isSome_iff, exists_prefix_drop_bound]
  simp [lowerStr]

/-- C3: for every sentence and compiled definition, `matchPatterns` returns
one record per compiled pattern that occurs in the sentence, at the first
occurrence only (minimal offset); every record satisfies
`matchedText == sentence.substring(offset, offset+length)`; and the records
follow the order of the definition patterns (their pattern texts form an
order-preserving sublist of the definition pattern list). -/
theorem matchPatterns_spec (sentence : Str) (item : CompiledBiasOrFallacy) :
    (∀ r ∈ matchPatterns sentence item,
        r.matched = jsSubstring sentence r.index (r.index + r.length) ∧
        r.length = r.matched.length ∧
        occursAtB r.pattern sentence r.index = true ∧
        ∀ j, j < r.index → occursAtB r.pattern sentence j = false) ∧
    ((matchPatterns sentence item).map fun r => r.pattern).Sublist
      (item.compiledPatterns.map fun p => p.regex) ∧
    (matchPatterns sentence item).length =
      (item.compiledPatterns.filter fun p =>
        decide (∃ k, k < sentence.length + 1 ∧
          occursAtB p.regex sentence k = true)).length := by
  refine ⟨?_, ?_, ?_⟩
  · intro r hr
    rw [matchPatterns, List.mem_filterMap] at hr
    obtain ⟨p, hp, hfp⟩ := hr
    obtain ⟨⟨i, t⟩, hji, hrec⟩ := Option.map_eq_some'.mp hfp
    obtain ⟨ht, hocc, hmin⟩ := jsMatchI_some_spec p.regex sentence i t hji
    subst hrec
    refine ⟨?_, rfl, hocc, hmin⟩
    rw [jsSubstring_of_le sentence i (i + t.length) (by omega),
      Nat.add_sub_cancel_left, ht]
    exact (take_take_length (sentence.drop i) p.regex.length).symm
  · unfold matchPatterns
    apply filterMap_map_sublist
    intro p r hpr
    obtain ⟨⟨i, t⟩, _, hrec⟩ := Option.map_eq_some'.mp hpr
    subst hrec
    rfl
  · rw [matchPatterns, length_filterMap_eq]
    congr 1
    apply List.filter_congr
    intro p hp
    rw [Option.isSome_map']
    by_cases hex : ∃ k, k < sentence.length + 1 ∧ occursAtB p.regex sentence k = true
    · rw [decide_eq_true hex]
      exact (jsMatchI_isSome_iff p.regex sentence).mpr hex
    · rw [decide_eq_false hex]
      exact bool_eq_false fun hc => hex ((jsMatchI_isSome_iff p.regex sentence).mp hc)

/-- Concrete sentence for the C3 witness. -/
def c3sentence : Str := "We knew this would happen now".toList

/-- Concrete single-pattern definition for the C3 witness. -/
def c3item : CompiledBiasOrFallacy :=
  { name := "Confirmation Bias".toList, description := [], patterns := [],
    context_clues := none, confidence_modifiers := none, exclusions := none,
    compiledPatterns := [{ regex := "knew this would happen".toList,
                           weight := none, description := none }] }

/-- The match record produced on the C3 witness input. -/
def c3record : PatternMatch :=
  { pattern := "knew this would happen".toList,
    matched := "knew this would happen".toList,
    index := 3, length := 22, weight := none }

/-- C3, witness: the concrete record is produced, equals the substring at its
offsets, and sits at the first occurrence. -/
theorem matchPatterns_spec_witness :
    c3record ∈ matchPatterns c3sentence c3item ∧
    c3record.matched = jsSubstring c3sentence c3record.index
      (c3record.index + c3record.length) ∧
    occursAtB c3record.pattern c3sentence c3record.index = true ∧
    occursAtB c3record.pattern c3sentence 2 = false :=
  ⟨by decide,
   ((matchPatterns_spec c3sentence c3item).1 c3record (by decide)).1,
   ((matchPatterns_spec c3sentence c3item).1 c3record (by decide)).2.2.1,
   ((matchPatterns_spec c3sentence c3item).1 c3record (by decide)).2.2.2 2 (by decide)⟩

/-! ## C6 -/

theorem testI_iff (pat s : Str) :
    testI pat s = true ↔ ∃ k, k < s.length + 1 ∧ occursAtB pat s k = true := by
  unfold testI occursAtB
  rw [firstIdx_isSome_iff, exists_prefix_drop_bound]
  simp [lowerStr]

/-- C6: `isExcluded` is true iff the sentence case-insensitively matches at
least one exclusion pattern of the definition (and is always false without
exclusions); a definition whose patterns match an excluded sentence yields
zero detections, while a matching non-excluded sentence yields exactly one
detection for that definition. -/
theorem exclusion_spec :
    (∀ (s : Str) (item : CompiledBiasOrFallacy),
        (item.exclusions = none → isExcluded s item = false) ∧
        (isExcluded s item = true ↔
          ∃ exs, item.exclusions = some exs ∧
            ∃ e ∈ exs, ∃ k, k < s.length + 1 ∧ occursAtB e.pattern s k = true)) ∧
    (∀ (gm : GlobalModifiers) (item : CompiledBiasOrFallacy) (s s' : Str),
        matchPatterns s item ≠ [] → isExcluded s item = true →
        matchPatterns s' item ≠ [] → isExcluded s' item = false →
        s'.all isJsWhitespace = false →
        detectInSentence ⟨gm, [item], []⟩ s .all = [] ∧
        detectInSentence ⟨gm, [item], []⟩ s' .all =
          [{ type := .bias, name := item.name, description := item.description,
             «matches» := matchPatterns s' item,
             confidence := calculateConfidence gm (matchPatterns s' item) s' item }]) := by
  constructor
  · intro s item
    constructor
    · intro h
      simp [isExcluded, h]
    · unfold isExcluded
      cases hexs : item.exclusions with
      | none => simp
      | some exs =>
        simp only [List.any_eq_true]
        constructor
        · rintro ⟨e, he, hte⟩
          exact ⟨exs, rfl, e, he, (testI_iff e.pattern s).mp hte⟩
        · rintro ⟨exs', heq, e, he, hk⟩
          cases heq
          exact ⟨e, he, (testI_iff e.pattern s).mpr hk⟩
  · intro gm item s s' hm he hm' he' hw'
    constructor
    · unfold detectInSentence
      by_cases hws : s.all isJsWhitespace = true
      · simp [hws]
      · rw [if_neg hws]
        simp [detectCategory, he]
    · have hlen : 0 < (matchPatterns s' item).length := List.length_pos.mpr hm'
      unfold detectInSentence
      rw [if_neg (by simp [hw'])]
      simp [detectCategory, he', hlen]

/-- Concrete definition (pattern `bad`, exclusion `not bad`) for the C6
witness. -/
def c6item : CompiledBiasOrFallacy :=
  { name := "Test".toList, description := [], patterns := [],
    context_clues := none, confidence_modifiers := none,
    exclusions := some [{ pattern := "not bad".toList, reason := [] }],
    compiledPatterns := [{ regex := "bad".toList, weight := none,
                           description := none }] }

/-- Excluded sentence of the C6 witness. -/
def c6excluded : Str := "this is not bad".toList

/-- Matching non-excluded sentence of the C6 witness. -/
def c6clean : Str := "this is bad".toList

/-- C6, witness: on the concrete definition, the excluded sentence yields no
detection and the clean sentence yields exactly one. -/
theorem exclusion_spec_witness :
    matchPatterns c6excluded c6item ≠ [] ∧
    isExcluded c6excluded c6item = true ∧
    isExcluded c6clean c6item = false ∧
    detectInSentence ⟨emptyGlobalModifiers, [c6item], []⟩ c6excluded .all = [] ∧
    detectInSentence ⟨emptyGlobalModifiers, [c6item], []⟩ c6clean .all =
      [{ type := .bias, name := c6item.name, description := c6item.description,
         «matches» := matchPatterns c6clean c6item,
         confidence := calculateConfidence emptyGlobalModifiers
           (matchPatterns c6clean c6item) c6clean c6item }] :=
  ⟨by decide, by decide, by decide,
   (exclusion_spec.2 emptyGlobalModifiers c6item c6excluded c6clean (by decide)
     (by decide) (by decide) (by decide) (by decide)).1,
   (exclusion_spec.2 emptyGlobalModifiers c6item c6excluded c6clean (by decide)
     (by decide) (by decide) (by decide) (by decide)).2⟩

/-! ## C7 -/

theorem zip_map_mem {α β : Type} (f : α → β) :
    ∀ (l : List α) (pr : β × α), pr ∈ (l.map f).zip l → ∃ x ∈ l, pr = (f x, x) := by
  intro l
  induction l with
  | nil =>
    intro pr h
    simp at h
  | cons a t ih =>
    intro pr h
    rw [List.map_cons, List.zip_cons_cons] at h
    rcases List.mem_cons.mp h with h₁ | h₂
    · exact ⟨a, List.mem_cons_self a t, h₁⟩
    · obtain ⟨x, hx, hpr⟩ := ih pr h₂
      exact ⟨x, List.mem_cons_of_mem a hx, hpr⟩

/-- C7: `compilePatterns` preserves length and order, copies name,
description, and every pattern weight/description/text through unchanged,
compiles an empty pattern list to an empty compiled list, and the compiled
matcher is case-insensitive (matching depends only on the case-folded
pattern and sentence). -/
theorem compilePatterns_spec :
    (∀ items : List BiasOrFallacy,
        (compilePatterns items).length = items.length ∧
        ∀ pr ∈ (compilePatterns items).zip items,
          pr.1.name = pr.2.name ∧
          pr.1.description = pr.2.description ∧
          pr.1.compiledPatterns.length = pr.2.patterns.length ∧
          (∀ q ∈ pr.1.compiledPatterns.zip pr.2.patterns,
            q.1.regex = q.2.regex ∧ q.1.weight = q.2.weight ∧
              q.1.description = q.2.description) ∧
          (pr.2.patterns = [] → pr.1.compiledPatterns = [])) ∧
    (∀ pat pat' s s' i, lowerStr pat = lowerStr pat' → lowerStr s = lowerStr s' →
        occursAtB pat s i = occursAtB pat' s' i) := by
  constructor
  · intro items
    refine ⟨List.length_map items _, ?_⟩
    intro pr hpr
    obtain ⟨x, hx, rfl⟩ := zip_map_mem _ items pr hpr
    refine ⟨rfl, rfl, List.length_map _ _, ?_, ?_⟩
    · intro q hq
      obtain ⟨p, hp, rfl⟩ := zip_map_mem _ x.patterns q hq
      exact ⟨rfl, rfl, rfl⟩
    · intro hnil
      show x.patterns.map _ = []
      rw [hnil]
      rfl
  · intro pat pat' s s' i h₁ h₂
    unfold occursAtB
    rw [h₁, h₂]

/-- Concrete definition with an empty pattern list for the C7 witness. -/
def c7def : BiasOrFallacy :=
  { name := "Empty".toList, description := "d".toList, patterns := [],
    context_clues := none, confidence_modifiers := none, exclusions := none }

/-- Its compiled form. -/
def c7compiled : CompiledBiasOrFallacy :=
  { name := "Empty".toList, description := "d".toList, patterns := [],
    context_clues := none, confidence_modifiers := none, exclusions := none,
    compiledPatterns := [] }

/-- C7, witness: compiling the empty-pattern definition keeps the length and
yields an empty compiled list, and a concrete case-variant pair matches
identically. -/
theorem compilePatterns_spec_witness :
    (compilePatterns [c7def]).length = [c7def].length ∧
    (c7compiled, c7def) ∈ (compilePatterns [c7def]).zip [c7def] ∧
    c7compiled.compiledPatterns = [] ∧
    occursAtB "AB".toList "xab".toList 1 = occursAtB "ab".toList "xAB".toList 1 :=
  ⟨(compilePatterns_spec.1 [c7def]).1,
   by decide,
   ((compilePatterns_spec.1 [c7def]).2 (c7compiled, c7def) (by decide)).2.2.2.2 rfl,
   compilePatterns_spec.2 "AB".toList "ab".toList "xab".toList "xAB".toList 1
     (by decide) (by decide)⟩

/-! ## C4 -/

/-- `n` successive applications of the reinforcement boost. -/
def boostIter : Nat → ℚ → ℚ
  | 0, c => c
  | n + 1, c => boostConf (boostIter n c)

/-- The pair of fields the cross-sentence match compares. -/
def detKey (e : Detection) : PatternType × Str := (e.type, e.name)

/-- How many detections of the current sentence have position `k` of the next
sentence as their first same-type-and-name match (each one boosts it once). -/
def matchCount (cur next : List Detection) (k : Nat) : Nat :=
  (cur.filter fun d => decide (findSameIdx d next = some k)).length

/-- `1` when the detection finds a same-type-and-name match in the next
sentence (the boost it receives as a member of the current sentence). -/
def fwdBoost (d : Detection) (next : List Detection) : Nat :=
  if (findSameIdx d next).isSome = true then 1 else 0

/-- Boosts detection `k` of sentence `i` receives from the previous sentence
of the pass. -/
def prevBoosts (l : List SentenceDetection) : Nat → Nat → Nat
  | 0, _ => 0
  | i + 1, k =>
    match l[i]?, l[i + 1]? with
    | some sp, some si => matchCount sp.detections si.detections k
    | _, _ => 0

/-- The boost detection `k` of sentence `i` receives towards the next
sentence of the pass. -/
def nextBoost (l : List SentenceDetection) (i k : Nat) : Nat :=
  match l[i]?, l[i + 1]? with
  | some si, some sn =>
    match si.detections[k]? with
    | some d => fwdBoost d sn.detections
    | none => 0
  | _, _ => 0

/-- Total number of boosts detection `k` of sentence `i` receives over the
whole pass. -/
def totalBoosts (l : List SentenceDetection) (i k : Nat) : Nat :=
  prevBoosts l i k + nextBoost l i k

theorem boostIter_comp (m : Nat) (c : ℚ) :
    ∀ n, boostIter n (boostIter m c) = boostIter (m + n) c := by
  intro n
  induction n with
  | zero => rfl
  | succ n ih =>
    show boostConf (boostIter n (boostIter m c)) = boostIter (m + n + 1) c
    rw [ih]
    rfl

theorem boostAt_length (l : List Detection) : ∀ k, (boostAt l k).length = l.length := by
  induction l with
  | nil =>
    intro k
    rfl
  | cons d ds ih =>
    intro k
    cases k with
    | zero => rfl
    | succ k' =>
      show (d :: boostAt ds k').length = (d :: ds).length
      rw [List.length_cons, List.length_cons, ih k']

theorem boostAt_getElem? (l : List Detection) :
    ∀ k i, (boostAt l k)[i]? =
      if i = k then (l[k]?).map boostDetection else l[i]? := by
  induction l with
  | nil =>
    intro k i
    by_cases h : i = k <;> simp [boostAt, h]
  | cons d ds ih =>
    intro k i
    cases k with
    | zero =>
      cases i with
      | zero => simp [boostAt]
      | succ i' => simp [boostAt]
    | succ k' =>
      cases i with
      | zero => simp [boostAt]
      | succ i' =>
        simp only [boostAt, List.getElem?_cons_succ]
        rw [ih k' i']
        by_cases h : i' = k' <;> simp [h]

theorem findSameIdx_key (d₁ d₂ : Detection) (ht : d₁.type = d₂.type)
    (hn : d₁.name = d₂.name) :
    ∀ next : List Detection, findSameIdx d₁ next = findSameIdx d₂ next := by
  intro next
  induction next with
  | nil => rfl
  | cons e t ih =>
    show (if e.type = d₁.type ∧ e.name = d₁.name then some 0
      else (findSameIdx d₁ t).map (· + 1)) = _
    rw [ht, hn, ih]
    rfl

theorem findSameIdx_congrKeys (d : Detection) :
    ∀ (l₁ l₂ : List Detection),
      (∀ i : Nat, (l₁[i]?).map detKey = (l₂[i]?).map detKey) →
      findSameIdx d l₁ = findSameIdx d l₂ := by
  intro l₁
  induction l₁ with
  | nil =>
    intro l₂ h
    cases l₂ with
    | nil => rfl
    | cons e t => exact absurd (h 0) (by simp)
  | cons e₁ t₁ ih =>
    intro l₂ h
    cases l₂ with
    | nil => exact absurd (h 0) (by simp)
    | cons e₂ t₂ =>
      have h0 := h 0
      simp only [List.getElem?_cons_zero, Option.map_some', Option.some_inj] at h0
      have ht : e₁.type = e₂.type := congrArg Prod.fst h0
      have hn : e₁.name = e₂.name := congrArg Prod.snd h0
      show (if e₁.type = d.type ∧ e₁.name = d.name then some 0
        else (findSameIdx d t₁).map (· + 1)) = _
      rw [ht, hn, ih t₂ fun i => by simpa using h (i + 1)]
      rfl

theorem matchCount_congrKeys (next : List Detection) (k : Nat) :
    ∀ (l₁ l₂ : List Detection),
      (∀ i : Nat, (l₁[i]?).map detKey = (l₂[i]?).map detKey) →
      matchCount l₁ next k = matchCount l₂ next k := by
  intro l₁
  induction l₁ with
  | nil =>
    intro l₂ h
    cases l₂ with
    | nil => rfl
    | cons e t => exact absurd (h 0) (by simp)
  | cons e₁ t₁ ih =>
    intro l₂ h
    cases l₂ with
    | nil => exact absurd (h 0) (by simp)
    | cons e₂ t₂ =>
      have h0 := h 0
      simp only [List.getElem?_cons_zero, Option.map_some', Option.some_inj] at h0
      have ht : e₁.type = e₂.type := congrArg Prod.fst h0
      have hn : e₁.name = e₂.name := congrArg Prod.snd h0
      unfold matchCount
      rw [List.filter_cons, List.filter_cons,
        findSameIdx_key e₁ e₂ ht hn next]
      have hrec := ih t₂ fun i => by simpa using h (i + 1)
      unfold matchCount at hrec
      by_cases hd : decide (findSameIdx e₂ next = some k) = true
      · rw [hd, if_pos rfl, if_pos rfl, List.length_cons, List.length_cons, hrec]
      · rw [Bool.not_eq_true] at hd
        rw [hd]
        simp only [Bool.false_eq_true, if_false]
        exact hrec

theorem findSameIdx_some_spec (d : Detection) :
    ∀ (next : List Detection) (k : Nat), findSameIdx d next = some k →
      (∃ e, next[k]? = some e ∧ e.type = d.type ∧ e.name = d.name) ∧
      ∀ k' e', k' < k → next[k']? = some e' →
        ¬ (e'.type = d.type ∧ e'.name = d.name) := by
  intro next
  induction next with
  | nil =>
    intro k h
    exact absurd h (by simp [findSameIdx])
  | cons e t ih =>
    intro k h
    unfold findSameIdx at h
    split at h
    · next hP =>
      cases h
      exact ⟨⟨e, by simp, hP.1, hP.2⟩, fun k' e' hk' => absurd hk' (Nat.not_lt_zero k')⟩
    · next hP =>
      obtain ⟨j, hj, rfl⟩ := Option.map_eq_some'.mp h
      obtain ⟨⟨e', he', hte', hne'⟩, hmin⟩ := ih j hj
      refine ⟨⟨e', by simpa using he', hte', hne'⟩, ?_⟩
      intro k' e'' hk' hk''
      cases k' with
      | zero =>
        simp only [List.getElem?_cons_zero, Option.some_inj] at hk''
        subst hk''
        exact hP
      | succ k'' =>
        exact hmin k'' e'' (by omega) (by simpa using hk'')

theorem findSameIdx_none_spec (d : Detection) :
    ∀ next : List Detection, findSameIdx d next = none →
      ∀ e ∈ next, ¬ (e.type = d.type ∧ e.name = d.name) := by
  intro next
  induction next with
  | nil =>
    intro _ e he
    exact absurd he (List.not_mem_nil e)
  | cons e₀ t ih =>
    intro h e he
    unfold findSameIdx at h
    split at h
    · exact absurd h (by simp)
    · next hP =>
      have ht : findSameIdx d t = none := by
        cases hfi : findSameIdx d t with
        | none => rfl
        | some j =>
          rw [hfi] at h
          exact absurd h (by simp)
      rcases List.mem_cons.mp he with h' | h'
      · subst h'
        exact hP
      · exact ih ht e h'

theorem findSameIdx_isSome_iff (d : Detection) :
    ∀ next : List Detection, (findSameIdx d next).isSome = true ↔
      ∃ e ∈ next, e.type = d.type ∧ e.name = d.name := by
  intro next
  constructor
  · intro h
    obtain ⟨k, hk⟩ := Option.isSome_iff_exists.mp h
    obtain ⟨⟨e, he, hte, hne⟩, _⟩ := findSameIdx_some_spec d next k hk
    exact ⟨e, List.getElem?_mem he, hte, hne⟩
  · rintro ⟨e, he, hte, hne⟩
    cases hfi : findSameIdx d next with
    | some k => simp
    | none => exact absurd ⟨hte, hne⟩ (findSameIdx_none_spec d next hfi e he)

theorem pairStep_eq_of (st : List Detection × List Detection) (j : Nat)
    (cj : Detection) (h1 : st.1[j]? = some cj) :
    pairStep st j =
      match findSameIdx cj st.2 with
      | none => st
      | some k => (boostAt st.1 j, boostAt st.2 k) := by
  unfold pairStep
  rw [h1]

theorem processPair_go (cur next : List Detection) :
    ∀ j, j ≤ cur.length →
      ((List.range j).foldl pairStep (cur, next)).1.length = cur.length ∧
      ((List.range j).foldl pairStep (cur, next)).2.length = next.length ∧
      (∀ i : Nat, ((List.range j).foldl pairStep (cur, next)).1[i]? =
        (cur[i]?).map fun d =>
          if i < j ∧ (findSameIdx d next).isSome = true then boostDetection d
          else d) ∧
      (∀ k : Nat, ((List.range j).foldl pairStep (cur, next)).2[k]? =
        (next[k]?).map fun e =>
          { e with confidence :=
              boostIter (matchCount (cur.take j) next k) e.confidence }) := by
  intro j
  induction j with
  | zero =>
    intro _
    refine ⟨rfl, rfl, ?_, ?_⟩
    · intro i
      cases hci : cur[i]? with
      | none => simp [hci]
      | some d => simp [hci]
    · intro k
      cases hnk : next[k]? with
      | none => simp [hnk]
      | some e =>
        show next[k]? = _
        rw [hnk]
        rfl
  | succ j ihj =>
    intro hj1
    have hj : j ≤ cur.length := by omega
    obtain ⟨h1, h2, h3, h4⟩ := ihj hj
    rw [List.range_succ, List.foldl_append, List.foldl_cons, List.foldl_nil]
    have hjlt : j < cur.length := by omega
    have hcj : cur[j]? = some cur[j] := List.getElem?_eq_getElem hjlt
    have hstj : ((List.range j).foldl pairStep (cur, next)).1[j]? =
        some cur[j] := by
      rw [h3 j, hcj]
      simp
    have hkeys : ∀ i : Nat,
        ((((List.range j).foldl pairStep (cur, next)).2)[i]?).map detKey =
          (next[i]?).map detKey := by
      intro i
      rw [h4 i]
      cases next[i]? with
      | none => rfl
      | some e => rfl
    have hfs : findSameIdx cur[j] ((List.range j).foldl pairStep (cur, next)).2 =
        findSameIdx cur[j] next :=
      findSameIdx_congrKeys cur[j] _ _ hkeys
    rw [pairStep_eq_of _ j cur[j] hstj, hfs]
    cases hf : findSameIdx cur[j] next with
    | none =>
      refine ⟨h1, h2, ?_, ?_⟩
      · intro i
        rw [h3 i]
        cases hci : cur[i]? with
        | none => rfl
        | some d =>
          simp only [Option.map_some', Option.some_inj]
          by_cases hij : i = j
          · subst hij
            have hd : d = cur[i] := by
              rw [hci] at hcj
              exact Option.some_inj.mp hcj
            subst hd
            rw [hf]
            simp
          · exact if_congr (and_congr_left' (by omega)) rfl rfl
      · intro k
        rw [h4 k]
        have hmc : matchCount (cur.take (j + 1)) next k =
            matchCount (cur.take j) next k := by
          rw [List.take_succ, hcj]
          unfold matchCount
          rw [List.filter_append, List.length_append]
          simp [hf]
        rw [hmc]
    | some k₀ =>
      refine ⟨?_, ?_, ?_, ?_⟩
      · rw [boostAt_length, h1]
      · rw [boostAt_length, h2]
      · intro i
        rw [boostAt_getElem?]
        by_cases hij : i = j
        · subst hij
          rw [if_pos rfl, hstj, hcj]
          simp only [Option.map_some', Option.some_inj]
          rw [hf]
          simp
        · rw [if_neg hij, h3 i]
          cases hci : cur[i]? with
          | none => rfl
          | some d =>
            simp only [Option.map_some', Option.some_inj]
            exact if_congr (and_congr_left' (by omega)) rfl rfl
      · intro k
        rw [boostAt_getElem?]
        by_cases hk : k = k₀
        · subst hk
          rw [if_pos rfl, h4 k]
          cases hnk : next[k]? with
          | none => rfl
          | some e =>
            simp only [Option.map_some', Option.some_inj]
            have hmc : matchCount (cur.take (j + 1)) next k =
                matchCount (cur.take j) next k + 1 := by
              rw [List.take_succ, hcj]
              unfold matchCount
              rw [List.filter_append, List.length_append]
              simp [hf]
            rw [hmc]
            rfl
        · rw [if_neg hk, h4 k]
          have hmc : matchCount (cur.take (j + 1)) next k =
              matchCount (cur.take j) next k := by
            rw [List.take_succ, hcj]
            unfold matchCount
            rw [List.filter_append, List.length_append]
            have : ¬ (some k₀ = some k) := fun h => hk (Option.some_inj.mp h).symm
            simp [hf, this]
          rw [hmc]

theorem processPair_spec (cur next : List Detection) :
    (processPair cur next).1.length = cur.length ∧
    (processPair cur next).2.length = next.length ∧
    (∀ i : Nat, (processPair cur next).1[i]? =
      (cur[i]?).map fun d =>
        if (findSameIdx d next).isSome = true then boostDetection d else d) ∧
    (∀ k : Nat, (processPair cur next).2[k]? =
      (next[k]?).map fun e =>
        { e with confidence := boostIter (matchCount cur next k) e.confidence }) := by
  obtain ⟨h1, h2, h3, h4⟩ := processPair_go cur next cur.length (Nat.le_refl _)
  refine ⟨h1, h2, ?_, ?_⟩
  · intro i
    show ((List.range cur.length).foldl pairStep (cur, next)).1[i]? = _
    rw [h3 i]
    cases hci : cur[i]? with
    | none => rfl
    | some d =>
      have hilt : i < cur.length := by
        by_contra hge
        rw [List.getElem?_eq_none (by omega)] at hci
        exact Option.noConfusion hci
      simp [hilt]
  · intro k
    show ((List.range cur.length).foldl pairStep (cur, next)).2[k]? = _
    rw [h4 k, List.take_length]

theorem analyzeContextGo_spec :
    ∀ (n : Nat) (l : List SentenceDetection), l.length ≤ n →
      (analyzeContextGo l).length = l.length ∧
      ∀ (i : Nat) (si : SentenceDetection), l[i]? = some si →
        ∃ si', (analyzeContextGo l)[i]? = some si' ∧
          si'.sentence = si.sentence ∧
          si'.sentenceIndex = si.sentenceIndex ∧
          si'.detections.length = si.detections.length ∧
          ∀ (k : Nat) (d : Detection), si.detections[k]? = some d →
            si'.detections[k]? =
              some { d with confidence := boostIter (totalBoosts l i k) d.confidence } := by
  intro n
  induction n with
  | zero =>
    intro l hl
    have h0 : l = [] := List.eq_nil_of_length_eq_zero (Nat.le_zero.mp hl)
    subst h0
    refine ⟨?_, ?_⟩
    · rw [analyzeContextGo]
    · intro i si hsi
      exact absurd hsi (by simp)
  | succ n ih =>
    intro l hl
    cases l with
    | nil =>
      refine ⟨?_, ?_⟩
      · rw [analyzeContextGo]
      · intro i si hsi
        exact absurd hsi (by simp)
    | cons s₁ t =>
      cases t with
      | nil =>
        have hgo1 : analyzeContextGo [s₁] = [s₁] := by rw [analyzeContextGo]
        refine ⟨by rw [hgo1], ?_⟩
        intro i si hsi
        cases i with
        | zero =>
          have hs : s₁ = si := by
            rw [List.getElem?_cons_zero] at hsi
            exact Option.some_inj.mp hsi
          subst hs
          refine ⟨s₁, by rw [hgo1, List.getElem?_cons_zero], rfl, rfl, rfl, ?_⟩
          intro k d hd
          have ht : totalBoosts [s₁] 0 k = 0 := by
            simp [totalBoosts, prevBoosts, nextBoost]
          rw [ht]
          exact hd
        | succ j => exact absurd hsi (by simp)
      | cons s₂ rest =>
        obtain ⟨pl1, pl2, pe1, pe2⟩ := processPair_spec s₁.detections s₂.detections
        have hgo : analyzeContextGo (s₁ :: s₂ :: rest) =
            { s₁ with detections := (processPair s₁.detections s₂.detections).1 } ::
              analyzeContextGo
                ({ s₂ with detections := (processPair s₁.detections s₂.detections).2 }
                  :: rest) := by
          rw [analyzeContextGo]
        have hkeys2 : ∀ i : Nat,
            (((processPair s₁.detections s₂.detections).2)[i]?).map detKey =
              (s₂.detections[i]?).map detKey := by
          intro i
          rw [pe2 i]
          cases s₂.detections[i]? with
          | none => rfl
          | some e => rfl
        have hlen' :
            ({ s₂ with detections := (processPair s₁.detections s₂.detections).2 }
              :: rest).length ≤ n := by
          simp only [List.length_cons] at hl ⊢
          omega
        obtain ⟨ihlen, ihel⟩ := ih _ hlen'
        refine ⟨?_, ?_⟩
        · rw [hgo, List.length_cons, ihlen]
          simp [List.length_cons]
        · intro i si hsi
          cases i with
          | zero =>
            have hs : s₁ = si := by
              rw [List.getElem?_cons_zero] at hsi
              exact Option.some_inj.mp hsi
            subst hs
            refine ⟨{ s₁ with detections := (processPair s₁.detections s₂.detections).1 },
              by rw [hgo, List.getElem?_cons_zero], rfl, rfl, pl1, ?_⟩
            intro k d hd
            show (processPair s₁.detections s₂.detections).1[k]? = _
            rw [pe1 k, hd]
            simp only [Option.map_some', Option.some_inj]
            have htb : totalBoosts (s₁ :: s₂ :: rest) 0 k =
                fwdBoost d s₂.detections := by
              unfold totalBoosts
              have h1 : nextBoost (s₁ :: s₂ :: rest) 0 k =
                  fwdBoost d s₂.detections := by
                simp [nextBoost, hd]
              rw [h1, show prevBoosts (s₁ :: s₂ :: rest) 0 k = 0 from rfl,
                Nat.zero_add]
            rw [htb]
            unfold fwdBoost
            by_cases hf : (findSameIdx d s₂.detections).isSome = true
            · rw [if_pos hf, if_pos hf]
              rfl
            · rw [if_neg hf, if_neg hf]
              rfl
          | succ j =>
            have hsi' : (s₂ :: rest)[j]? = some si := by
              rw [List.getElem?_cons_succ] at hsi
              exact hsi
            cases j with
            | zero =>
              have hs : s₂ = si := by
                rw [List.getElem?_cons_zero] at hsi'
                exact Option.some_inj.mp hsi'
              subst hs
              obtain ⟨si', hout, hsen, hidx, hlen2, hdet⟩ :=
                ihel 0
                  { s₂ with detections := (processPair s₁.detections s₂.detections).2 }
                  (by rw [List.getElem?_cons_zero])
              refine ⟨si', ?_, hsen, hidx, ?_, ?_⟩
              · rw [hgo, List.getElem?_cons_succ]
                exact hout
              · rw [hlen2]
                exact pl2
              · intro k d hd
                have hpe := pe2 k
                rw [hd] at hpe
                simp only [Option.map_some'] at hpe
                have hdres := hdet k _ hpe
                refine hdres.trans ?_
                have hT : matchCount s₁.detections s₂.detections k +
                    totalBoosts
                      ({ s₂ with detections := (processPair s₁.detections s₂.detections).2 }
                        :: rest) 0 k =
                    totalBoosts (s₁ :: s₂ :: rest) 1 k := by
                  unfold totalBoosts
                  have hp0 : prevBoosts
                      ({ s₂ with detections := (processPair s₁.detections s₂.detections).2 }
                        :: rest) 0 k = 0 := rfl
                  have hpm : prevBoosts (s₁ :: s₂ :: rest) 1 k =
                      matchCount s₁.detections s₂.detections k := by
                    simp [prevBoosts]
                  cases rest with
                  | nil =>
                    have hn0 : nextBoost
                        ({ s₂ with detections :=
                          (processPair s₁.detections s₂.detections).2 }
                          :: ([] : List SentenceDetection)) 0 k = 0 := by
                      simp [nextBoost]
                    have hn1 : nextBoost (s₁ :: s₂ :: ([] : List SentenceDetection))
                        1 k = 0 := by
                      simp [nextBoost]
                    rw [hp0, hpm, hn0, hn1]
                  | cons r₀ rr =>
                    have hkey : fwdBoost
                        { d with confidence := boostIter (matchCount s₁.detections s₂.detections k) d.confidence }
                        r₀.detections = fwdBoost d r₀.detections := by
                      unfold fwdBoost
                      rw [findSameIdx_key
                        { d with confidence := boostIter (matchCount s₁.detections s₂.detections k) d.confidence }
                        d rfl rfl r₀.detections]
                    have hn0 : nextBoost
                        ({ s₂ with detections :=
                          (processPair s₁.detections s₂.detections).2 }
                          :: r₀ :: rr) 0 k = fwdBoost d r₀.detections := by
                      simp [nextBoost, hpe, hkey]
                    have hn1 : nextBoost (s₁ :: s₂ :: r₀ :: rr) 1 k =
                        fwdBoost d r₀.detections := by
                      simp [nextBoost, hd]
                    rw [hp0, hpm, hn0, hn1]
                    omega
                show some (⟨d.type, d.name, d.description, d.«matches»,
                    boostIter
                      (totalBoosts
                        ({ s₂ with detections :=
                          (processPair s₁.detections s₂.detections).2 } :: rest) 0 k)
                      (boostIter (matchCount s₁.detections s₂.detections k)
                        d.confidence)⟩ : Detection) = _
                rw [boostIter_comp, hT]
            | succ j' =>
              have hrest : rest[j']? = some si := by
                rw [List.getElem?_cons_succ] at hsi'
                exact hsi'
              obtain ⟨si', hout, hsen, hidx, hlen2, hdet⟩ := ihel (j' + 1) si
                (by rw [List.getElem?_cons_succ]; exact hrest)
              refine ⟨si', ?_, hsen, hidx, hlen2, ?_⟩
              · rw [hgo, List.getElem?_cons_succ]
                exact hout
              · intro k d hd
                rw [hdet k d hd]
                have hshift : totalBoosts
                    ({ s₂ with detections := (processPair s₁.detections s₂.detections).2 }
                      :: rest) (j' + 1) k =
                    totalBoosts (s₁ :: s₂ :: rest) (j' + 2) k := by
                  unfold totalBoosts
                  have hnb : nextBoost
                      ({ s₂ with detections :=
                        (processPair s₁.detections s₂.detections).2 } :: rest)
                        (j' + 1) k =
                      nextBoost (s₁ :: s₂ :: rest) (j' + 2) k := by
                    simp only [nextBoost, List.getElem?_cons_succ]
                  have hpb : prevBoosts
                      ({ s₂ with detections :=
                        (processPair s₁.detections s₂.detections).2 } :: rest)
                        (j' + 1) k =
                      prevBoosts (s₁ :: s₂ :: rest) (j' + 2) k := by
                    cases j' with
                    | zero =>
                      cases rest with
                      | nil => simp [prevBoosts]
                      | cons r₀ rr =>
                        simp only [prevBoosts, List.getElem?_cons_zero,
                          List.getElem?_cons_succ]
                        exact matchCount_congrKeys r₀.detections k _ _ hkeys2
                    | succ j'' =>
                      simp only [prevBoosts, List.getElem?_cons_succ]
                  rw [hpb, hnb]
                rw [hshift]

theorem analyzeContext_eq_go :
    ∀ l : List SentenceDetection, analyzeContext l = analyzeContextGo l := by
  intro l
  unfold analyzeContext
  by_cases h : l.length ≤ 1
  · rw [if_pos h]
    cases l with
    | nil => rw [analyzeContextGo]
    | cons s t =>
      cases t with
      | nil => rw [analyzeContextGo]
      | cons s₂ t₂ =>
        exact absurd h (by simp only [List.length_cons]; omega)
  · rw [if_neg h]

/-- **C4.** Cross-sentence reinforcement: inputs of length at most one are
returned unchanged.  Otherwise the pass makes a single left-to-right sweep
over adjacent sentence pairs; `findSameIdx` is the `Array.find` of the code:
it returns the first index of the next sentence holding a detection of the
same type and name, and `none` exactly when no such detection exists.  Every
sentence keeps its text, index and number of detections, and detection `k` of
sentence `i` ends with its confidence boosted `totalBoosts l i k` times by
`c ↦ min 0.95 (c + 0.05)`: once for each detection of the previous sentence
whose first match lands on it, plus once more if it has a match in the
following sentence.  (The original claim said each matched detection is
increased by exactly one such step; that is refuted by
`analyzeContext_exactBoost_cex`, where two same-name detections in the current
sentence boost the same next-sentence detection twice.) -/
theorem analyzeContext_spec :
    (∀ l : List SentenceDetection, l.length ≤ 1 → analyzeContext l = l) ∧
    (∀ (d : Detection) (next : List Detection),
      ((findSameIdx d next).isSome = true ↔
        ∃ e ∈ next, e.type = d.type ∧ e.name = d.name) ∧
      (∀ k : Nat, findSameIdx d next = some k →
        (∃ e, next[k]? = some e ∧ e.type = d.type ∧ e.name = d.name) ∧
        ∀ k' e', k' < k → next[k']? = some e' →
          ¬ (e'.type = d.type ∧ e'.name = d.name)) ∧
      (findSameIdx d next = none →
        ∀ e ∈ next, ¬ (e.type = d.type ∧ e.name = d.name))) ∧
    ∀ l : List SentenceDetection,
      (analyzeContext l).length = l.length ∧
      ∀ (i : Nat) (si : SentenceDetection), l[i]? = some si →
        ∃ si', (analyzeContext l)[i]? = some si' ∧
          si'.sentence = si.sentence ∧
          si'.sentenceIndex = si.sentenceIndex ∧
          si'.detections.length = si.detections.length ∧
          ∀ (k : Nat) (d : Detection), si.detections[k]? = some d →
            si'.detections[k]? =
              some { d with confidence := boostIter (totalBoosts l i k) d.confidence } := by
  refine ⟨?_, ?_, ?_⟩
  · intro l h
    unfold analyzeContext
    rw [if_pos h]
  · intro d next
    exact ⟨findSameIdx_isSome_iff d next, fun k => findSameIdx_some_spec d next k,
      findSameIdx_none_spec d next⟩
  · intro l
    rw [analyzeContext_eq_go l]
    exact analyzeContextGo_spec l.length l (Nat.le_refl _)

/-- A detection with confidence `0.5`, the shape used by the counterexample:
two copies of it in one sentence both `find` the same copy in the next
sentence. -/
def c4half : Detection := ⟨PatternType.bias, "A".toList, [], [], 1 / 2⟩

/-- **C4, counterexample to the claim as stated.**  With two detections of
the same type and name in the current sentence, the code boosts the same
first matching detection of the next sentence twice (`0.5 ↦ 0.55 ↦ 0.6`), so
the output is not the one the claim predicts, where every matched detection
is increased by exactly `min 0.95 (c + 0.05)` once. -/
theorem analyzeContext_exactBoost_cex :
    ¬ (analyzeContext
        [⟨"a".toList, 0, [c4half, c4half]⟩, ⟨"b".toList, 1, [c4half]⟩] =
      [⟨"a".toList, 0, [boostDetection c4half, boostDetection c4half]⟩,
       ⟨"b".toList, 1, [boostDetection c4half]⟩]) := by
  intro h
  have hval : analyzeContext
      [⟨"a".toList, 0, [c4half, c4half]⟩, ⟨"b".toList, 1, [c4half]⟩] =
      [⟨"a".toList, 0, [boostDetection c4half, boostDetection c4half]⟩,
       ⟨"b".toList, 1, [boostDetection (boostDetection c4half)]⟩] := by
    unfold analyzeContext
    rw [if_neg (by decide)]
    rw [analyzeContextGo, analyzeContextGo]
    rfl
  rw [hval] at h
  have h2 : boostDetection (boostDetection c4half) = boostDetection c4half := by
    have h1 := congrArg (fun l : List SentenceDetection =>
      (l[1]?).bind fun s => s.detections[0]?) h
    simpa using h1
  have h3 : boostConf (boostConf (1 / 2 : ℚ)) = boostConf (1 / 2 : ℚ) :=
    congrArg Detection.confidence h2
  norm_num [boostConf, min_def] at h3

/-- Same-name witnesses for the amended C4 theorem (integer confidences so
the side conditions evaluate). -/
def c4w1 : Detection := ⟨PatternType.bias, "W".toList, [], [], 1⟩

def c4w2 : Detection := ⟨PatternType.bias, "W".toList, [], [], 2⟩

def c4w3 : Detection := ⟨PatternType.fallacy, "V".toList, [], [], 3⟩

def c4l : List SentenceDetection :=
  [⟨"a".toList, 0, [c4w1, c4w1]⟩, ⟨"b".toList, 1, [c4w2]⟩]

/-- Witness for `analyzeContext_spec`: a singleton list is unchanged; the
first-match minimality rejects the non-matching head; and in `c4l`, whose
first sentence holds two detections named `W`, the single next-sentence
detection receives `totalBoosts c4l 1 0 = 2` boosts. -/
theorem analyzeContext_spec_witness :
    analyzeContext [(⟨"c".toList, 2, []⟩ : SentenceDetection)] =
      [⟨"c".toList, 2, []⟩] ∧
    ¬ (c4w3.type = c4w2.type ∧ c4w3.name = c4w2.name) ∧
    totalBoosts c4l 1 0 = 2 ∧
    ((analyzeContext c4l)[1]?).map (fun si => si.detections[0]?) =
      some (some { c4w2 with confidence := boostIter (totalBoosts c4l 1 0) c4w2.confidence }) ∧
    ((analyzeContext c4l)[1]?).map (fun si => si.sentence) =
      some "b".toList := by
  refine ⟨analyzeContext_spec.1 _ (by decide),
    ((analyzeContext_spec.2.1 c4w2 [c4w3, c4w2]).2.1 1 (by decide)).2 0 c4w3
      (by decide) (by simp),
    by decide, ?_, ?_⟩
  · obtain ⟨si', hout, hsen, hidx, hlen, hdet⟩ :=
      (analyzeContext_spec.2.2 c4l).2 1 ⟨"b".toList, 1, [c4w2]⟩ (by simp [c4l])
    rw [hout]
    simp only [Option.map_some', Option.some_inj]
    exact hdet 0 c4w2 (by simp)
  · obtain ⟨si', hout, hsen, hidx, hlen, hdet⟩ :=
      (analyzeContext_spec.2.2 c4l).2 1 ⟨"b".toList, 1, [c4w2]⟩ (by simp [c4l])
    rw [hout]
    simp only [Option.map_some', Option.some_inj]
    exact hsen

/-! ## C8 -/

theorem mem_dedup_fold (l : List Str) :
    ∀ (acc : List Str) (n : Str),
      (n ∈ l.foldl (fun ks m => if m ∈ ks then ks else ks ++ [m]) acc) ↔
        n ∈ acc ∨ n ∈ l := by
  induction l with
  | nil =>
    intro acc n
    simp
  | cons m rest ih =>
    intro acc n
    rw [List.foldl_cons, ih]
    by_cases hm : m ∈ acc
    · rw [if_pos hm]
      constructor
      · rintro (h | h)
        · exact Or.inl h
        · exact Or.inr (List.mem_cons_of_mem m h)
      · rintro (h | h)
        · exact Or.inl h
        · rcases List.mem_cons.mp h with h' | h'
          · exact Or.inl (h' ▸ hm)
          · exact Or.inr h'
    · rw [if_neg hm]
      constructor
      · rintro (h | h)
        · rcases List.mem_append.mp h with h' | h'
          · exact Or.inl h'
          · exact Or.inr (List.mem_cons.mpr (Or.inl (List.mem_singleton.mp h')))
        · exact Or.inr (List.mem_cons_of_mem m h)
      · rintro (h | h)
        · exact Or.inl (List.mem_append.mpr (Or.inl h))
        · rcases List.mem_cons.mp h with h' | h'
          · exact Or.inl (List.mem_append.mpr (Or.inr (List.mem_singleton.mpr h')))
          · exact Or.inr h'

theorem mem_dedupNames (l : List Str) (n : Str) : n ∈ dedupNames l ↔ n ∈ l := by
  unfold dedupNames
  rw [mem_dedup_fold]
  simp

theorem length_filterMap_all {α β : Type} (f : α → Option β) (l : List α)
    (h : ∀ a ∈ l, (f a).isSome = true) : (l.filterMap f).length = l.length := by
  rw [length_filterMap_eq]
  rw [List.filter_eq_self.mpr h]

theorem validateDetections_error_eq (rb : List SentenceDetection)
    (llm : List LLMDetection) :
    validateDetections rb llm (.error ()) =
      ((flattenRuleBasedDetections rb ++ flattenLLMDetections llm).filter
        fun d => decide ((13 : ℚ)/20 ≤ d.confidence)).map fun d =>
          { toFlatDetection := d
            isValidated := true
            validationReasoning := autoValidatedReasoning
            validationScore := d.confidence } := by
  simp only [validateDetections]
  by_cases he :
      (flattenRuleBasedDetections rb ++ flattenLLMDetections llm).isEmpty = true
  · rw [if_pos he]
    rw [List.isEmpty_iff] at he
    rw [he]
    rfl
  · rw [if_neg he]

theorem generateExplanations_error_mem (data : BiasesFallaciesData)
    (validated : List ValidatedDetection) (p : Str × Explanation)
    (hp : p ∈ generateExplanations data validated (fun _ => .error ())) :
    ∃ name d, p = (name, fallbackExplanation data name d) := by
  unfold generateExplanations at hp
  rw [List.mem_filterMap] at hp
  obtain ⟨name, _, hf⟩ := hp
  cases hflt : validated.filter fun d => decide (d.name = name) with
  | nil =>
    rw [hflt] at hf
    exact absurd hf (by simp)
  | cons d ds =>
    rw [hflt] at hf
    simp only [Option.some_inj] at hf
    exact ⟨name, _, hf.symm⟩

theorem generateExplanations_error_length (data : BiasesFallaciesData)
    (validated : List ValidatedDetection) :
    (generateExplanations data validated (fun _ => .error ())).length =
      (dedupNames (validated.map fun d => d.name)).length := by
  unfold generateExplanations
  apply length_filterMap_all
  intro name hname
  have h1 : name ∈ validated.map fun d => d.name := (mem_dedupNames _ _).mp hname
  obtain ⟨d, hd, hdn⟩ := List.mem_map.mp h1
  cases hflt : validated.filter fun x => decide (x.name = name) with
  | nil =>
    exfalso
    have : d ∈ validated.filter fun x => decide (x.name = name) :=
      List.mem_filter.mpr ⟨hd, by simp [hdn]⟩
    rw [hflt] at this
    exact absurd this (List.not_mem_nil d)
  | cons e es => simp [hflt]

/-- C8: when the validation collaborator fails, the validation stage returns
exactly the merged detections of confidence at least `0.65`, each marked as
auto-validated with its own confidence as score; when the framing
collaborator fails, the fixed neutral default is substituted; and with every
collaborator failing the pipeline still produces a complete `FinalOutput`,
with threshold-filtered detections, one static fallback explanation per
distinct detection name, and the neutral default analysis. -/
theorem pipeline_fallback_spec :
    (∀ (rb : List SentenceDetection) (llm : List LLMDetection),
        validateDetections rb llm (.error ()) =
          ((flattenRuleBasedDetections rb ++ flattenLLMDetections llm).filter
            fun d => decide ((13 : ℚ)/20 ≤ d.confidence)).map fun d =>
              { toFlatDetection := d
                isValidated := true
                validationReasoning := autoValidatedReasoning
                validationScore := d.confidence }) ∧
    (∀ (rb : List SentenceDetection) (llm : List LLMDetection)
        (d : ValidatedDetection), d ∈ validateDetections rb llm (.error ()) →
        d.isValidated = true ∧ d.validationReasoning = autoValidatedReasoning ∧
        d.validationScore = d.confidence ∧ (13 : ℚ)/20 ≤ d.confidence) ∧
    (analyzeArticleFraming (.error ()) = defaultArticleAnalysis ∧
      defaultArticleAnalysis.overallTone = Tone.neutral ∧
      defaultArticleAnalysis.credibilityScore = 5 ∧
      defaultArticleAnalysis.manipulationTechniques = ([] : List Str) ∧
      defaultArticleAnalysis.omittedPerspectives = ([] : List Str)) ∧
    (∀ (data : BiasesFallaciesData) (validated : List ValidatedDetection)
        (e : Explanation),
        e ∈ (generateExplanations data validated fun _ => .error ()).map
          (fun p => p.2) →
        e.whyProblematic =
          "This can lead to distorted reasoning and manipulation.".toList ∧
        e.alternativeFraming = none) ∧
    (∀ inp : PipelineInput,
        (runPipeline inp allFailOutcomes).detections =
          validateDetections
            (detectInText (mkDetector inp.data) inp.rawText inp.splitter) []
            (.error ()) ∧
        (runPipeline inp allFailOutcomes).articleAnalysis =
          defaultArticleAnalysis ∧
        (runPipeline inp allFailOutcomes).explanations =
          (generateExplanations inp.data (runPipeline inp allFailOutcomes).detections
            fun _ => .error ()).map (fun p => p.2) ∧
        (runPipeline inp allFailOutcomes).explanations.length =
          (dedupNames ((runPipeline inp allFailOutcomes).detections.map
            fun d => d.name)).length) := by
  refine ⟨validateDetections_error_eq, ?_, ⟨rfl, rfl, rfl, rfl, rfl⟩, ?_, ?_⟩
  · intro rb llm d hd
    rw [validateDetections_error_eq] at hd
    obtain ⟨d', hd', rfl⟩ := List.mem_map.mp hd
    obtain ⟨_, hdec⟩ := List.mem_filter.mp hd'
    exact ⟨rfl, rfl, rfl, of_decide_eq_true hdec⟩
  · intro data validated e he
    obtain ⟨⟨n, ex⟩, hmem, rfl⟩ := List.mem_map.mp he
    obtain ⟨name, d, hpd⟩ := generateExplanations_error_mem data validated _ hmem
    injection hpd with h₁ h₂
    rw [h₂]
    exact ⟨rfl, rfl⟩
  · intro inp
    refine ⟨rfl, rfl, rfl, ?_⟩
    have hre : (runPipeline inp allFailOutcomes).explanations =
        (generateExplanations inp.data
          (validateDetections
            (detectInText (mkDetector inp.data) inp.rawText inp.splitter) []
            (.error ()))
          fun _ => .error ()).map (fun p => p.2) := rfl
    rw [hre, List.length_map, generateExplanations_error_length]
    rfl

/-- Concrete LLM detection for the C8 witness. -/
def c8llmd : LLMDetection :=
  { type := .bias, name := "Appeal to Fear".toList, description := [],
    sentence := "s".toList, sentenceIndex := 0, quotedText := none,
    reasoning := none, confidence := 1, isSubtle := true }

/-- Its merged (flattened) form. -/
def c8flat : FlatDetection :=
  { type := .bias, name := "Appeal to Fear".toList, description := [],
    «matches» := [], confidence := 1, sentence := "s".toList, sentenceIndex := 0,
    sourceDetector := .llm, reasoning := none, quotedText := none }

/-- Its auto-validated form. -/
def c8vd : ValidatedDetection :=
  { toFlatDetection := c8flat, isValidated := true,
    validationReasoning := autoValidatedReasoning, validationScore := 1 }

/-- C8, witness: the concrete high-confidence detection survives the failing
validation stage auto-validated, and its explanation falls back to the
static text. -/
theorem pipeline_fallback_spec_witness :
    c8vd ∈ validateDetections [] [c8llmd] (.error ()) ∧
    c8vd.isValidated = true ∧
    c8vd.validationReasoning = autoValidatedReasoning ∧
    c8vd.validationScore = c8vd.confidence ∧
    (13 : ℚ)/20 ≤ c8vd.confidence ∧
    fallbackExplanation ⟨none, [], []⟩ "Appeal to Fear".toList c8vd ∈
      (generateExplanations ⟨none, [], []⟩ [c8vd] fun _ => .error ()).map
        (fun p => p.2) ∧
    (fallbackExplanation ⟨none, [], []⟩ "Appeal to Fear".toList c8vd).whyProblematic =
      "This can lead to distorted reasoning and manipulation.".toList ∧
    (fallbackExplanation ⟨none, [], []⟩ "Appeal to Fear".toList c8vd).alternativeFraming =
      none := by
  have hmem : c8vd ∈ validateDetections [] [c8llmd] (.error ()) := by
    rw [validateDetections_error_eq]
    have h65 : ((13 : ℚ)/20 ≤ ((1 : ℚ))) := by norm_num
    simp [flattenRuleBasedDetections, flattenLLMDetections, c8llmd, c8vd, c8flat,
      List.filter_cons, h65]
  have hexp : fallbackExplanation ⟨none, [], []⟩ "Appeal to Fear".toList c8vd ∈
      (generateExplanations ⟨none, [], []⟩ [c8vd] fun _ => .error ()).map
        (fun p => p.2) := by
    simp [generateExplanations, dedupNames, c8vd, c8flat, List.filterMap]
  obtain ⟨h₁, h₂, h₃, h₄⟩ := pipeline_fallback_spec.2.1 [] [c8llmd] c8vd hmem
  obtain ⟨h₅, h₆⟩ := pipeline_fallback_spec.2.2.2.1 ⟨none, [], []⟩ [c8vd]
    (fallbackExplanation ⟨none, [], []⟩ "Appeal to Fear".toList c8vd) hexp
  exact ⟨hmem, h₁, h₂, h₃, h₄, hexp, h₅, h₆⟩

/-! ## C5 -/

/-- Index of the first detection name equal to `n` (used to state the
first-encountered tie order). -/
def fstIdx (l : List Str) (n : Str) : Nat := l.findIdx fun m => decide (m = n)

/-- The key list of a grouping association list. -/
def groupKeys (groups : List (Str × Group)) : List Str := groups.map fun g => g.1

/-- Association-list lookup for the grouping maps. -/
def findGroup : List (Str × Group) → Str → Option Group
  | [], _ => none
  | (m, g) :: rest, n => if m = n then some g else findGroup rest n

/-- One category accumulation of `generateSummary`. -/
def groupsFold (items : List Detection) (acc : List (Str × Group)) :
    List (Str × Group) :=
  items.foldl (fun a d => updateGroups a d.name d.description d.confidence) acc

theorem findGroup_updateGroups (groups : List (Str × Group)) (name desc : Str)
    (conf : ℚ) (m : Str) :
    findGroup (updateGroups groups name desc conf) m =
      if m = name then
        match findGroup groups name with
        | none => some { count := 1, confidence := max 0 conf, description := desc }
        | some g => some { count := g.count + 1, confidence := max g.confidence conf,
                           description := g.description }
      else findGroup groups m := by
  induction groups with
  | nil =>
    by_cases h : m = name
    · rw [h]
      simp [updateGroups, findGroup]
    · have h' : ¬ (name = m) := fun hh => h hh.symm
      simp [updateGroups, findGroup, h, h']
  | cons hd tl ih =>
    obtain ⟨n, g⟩ := hd
    by_cases hn : n = name
    · subst hn
      by_cases hm : m = n
      · subst hm
        simp [updateGroups, findGroup]
      · have hm' : ¬ (n = m) := fun hh => hm hh.symm
        simp [updateGroups, findGroup, hm, hm']
    · by_cases hm : n = m
      · subst hm
        simp [updateGroups, findGroup, hn]
      · simp [updateGroups, findGroup, hn, hm, ih]

theorem groupKeys_updateGroups (groups : List (Str × Group)) (name desc : Str)
    (conf : ℚ) :
    groupKeys (updateGroups groups name desc conf) =
      if name ∈ groupKeys groups then groupKeys groups
      else groupKeys groups ++ [name] := by
  induction groups with
  | nil =>
    rw [if_neg (show ¬ name ∈ groupKeys [] from List.not_mem_nil name)]
    rfl
  | cons hd tl ih =>
    obtain ⟨n, g⟩ := hd
    by_cases hn : n = name
    · subst hn
      have hu : updateGroups ((n, g) :: tl) n desc conf =
          (n, { count := g.count + 1, confidence := max g.confidence conf,
                description := g.description }) :: tl := by
        unfold updateGroups
        rw [if_pos rfl]
      rw [hu, if_pos (show n ∈ groupKeys ((n, g) :: tl) from
        List.mem_cons_self n (groupKeys tl))]
      rfl
    · have hu : updateGroups ((n, g) :: tl) name desc conf =
          (n, g) :: updateGroups tl name desc conf := by
        simp only [updateGroups]
        rw [if_neg hn]
      rw [hu]
      rw [show groupKeys ((n, g) :: updateGroups tl name desc conf) =
        n :: groupKeys (updateGroups tl name desc conf) from rfl]
      rw [ih]
      have hmeml : (name ∈ groupKeys ((n, g) :: tl)) ↔ name ∈ groupKeys tl := by
        rw [show groupKeys ((n, g) :: tl) = n :: groupKeys tl from rfl]
        constructor
        · intro hmem
          rcases List.mem_cons.mp hmem with h' | h'
          · exact absurd h'.symm hn
          · exact h'
        · exact List.mem_cons_of_mem n
      by_cases hmem : name ∈ groupKeys tl
      · rw [if_pos hmem, if_pos (hmeml.mpr hmem)]
        rfl
      · rw [if_neg hmem, if_neg fun hh => hmem (hmeml.mp hh)]
        rfl

theorem findGroup_some_mem (groups : List (Str × Group)) (n : Str) (g : Group)
    (h : findGroup groups n = some g) : (n, g) ∈ groups := by
  induction groups with
  | nil => simp [findGroup] at h
  | cons hd tl ih =>
    obtain ⟨m, g'⟩ := hd
    unfold findGroup at h
    by_cases hm : m = n
    · rw [if_pos hm] at h
      injection h with h'
      subst hm
      subst h'
      exact List.mem_cons_self (m, g') tl
    · rw [if_neg hm] at h
      exact List.mem_cons_of_mem (m, g') (ih h)

theorem mem_groupKeys_of_mem {groups : List (Str × Group)} {n : Str} {g : Group}
    (h : (n, g) ∈ groups) : n ∈ groupKeys groups :=
  List.mem_map.mpr ⟨(n, g), h, rfl⟩

theorem findGroup_of_mem_nodup (groups : List (Str × Group))
    (hnd : (groupKeys groups).Nodup) (n : Str) (g : Group)
    (h : (n, g) ∈ groups) : findGroup groups n = some g := by
  induction groups with
  | nil => exact absurd h (List.not_mem_nil _)
  | cons hd tl ih =>
    obtain ⟨m, g'⟩ := hd
    rcases List.mem_cons.mp h with h' | h'
    · injection h' with h₁ h₂
      subst h₁
      subst h₂
      simp [findGroup]
    · have hnd' : (groupKeys tl).Nodup := (List.nodup_cons.mp hnd).2
      have hm : ¬ (m = n) := by
        intro hmn
        subst hmn
        exact (List.nodup_cons.mp hnd).1 (mem_groupKeys_of_mem h')
      unfold findGroup
      rw [if_neg hm]
      exact ih hnd' h'

theorem nodup_dedup_fold (l : List Str) :
    ∀ acc : List Str, acc.Nodup →
      (l.foldl (fun ks m => if m ∈ ks then ks else ks ++ [m]) acc).Nodup := by
  induction l with
  | nil =>
    intro acc h
    exact h
  | cons m rest ih =>
    intro acc h
    rw [List.foldl_cons]
    by_cases hm : m ∈ acc
    · rw [if_pos hm]
      exact ih acc h
    · rw [if_neg hm]
      refine ih _ (List.nodup_append.mpr ⟨h, List.nodup_singleton m, ?_⟩)
      intro a ha hma
      rw [List.mem_singleton] at hma
      exact hm (hma ▸ ha)

theorem fstIdx_append_left (l l₂ : List Str) (a : Str) (h : a ∈ l) :
    fstIdx (l ++ l₂) a = fstIdx l a := by
  induction l with
  | nil => exact absurd h (List.not_mem_nil a)
  | cons c rest ih =>
    rw [List.cons_append]
    unfold fstIdx at ih ⊢
    rw [List.findIdx_cons, List.findIdx_cons]
    by_cases hc : c = a
    · simp [hc]
    · rcases List.mem_cons.mp h with h' | h'
      · exact absurd h'.symm hc
      · simp [hc, ih h']

theorem fstIdx_append_self (l : List Str) (a : Str) (h : a ∉ l) :
    fstIdx (l ++ [a]) a = l.length := by
  induction l with
  | nil => simp [fstIdx, List.findIdx_cons]
  | cons c rest ih =>
    have hc : ¬ (c = a) := fun hh => h (hh ▸ List.mem_cons_self c rest)
    rw [List.cons_append]
    unfold fstIdx at ih ⊢
    rw [List.findIdx_cons]
    simp [hc, ih fun hh => h (List.mem_cons_of_mem c hh)]

theorem fstIdx_lt_length (l : List Str) (a : Str) (h : a ∈ l) :
    fstIdx l a < l.length := by
  induction l with
  | nil => exact absurd h (List.not_mem_nil a)
  | cons c rest ih =>
    unfold fstIdx at ih ⊢
    rw [List.findIdx_cons]
    by_cases hc : c = a
    · rw [show decide (c = a) = true from by simp [hc]]
      show (0 : Nat) < rest.length + 1
      omega
    · rcases List.mem_cons.mp h with h' | h'
      · exact absurd h'.symm hc
      · rw [show decide (c = a) = false from by simp [hc]]
        show rest.findIdx (fun m => decide (m = a)) + 1 < rest.length + 1
        exact Nat.succ_lt_succ (ih h')

theorem pairwise_fstIdx_dedup (l : List Str) :
    (dedupNames l).Pairwise fun a b => fstIdx l a < fstIdx l b := by
  induction l using List.reverseRecOn with
  | nil => simp [dedupNames]
  | append_singleton l x ih =>
    have hsnoc : dedupNames (l ++ [x]) =
        if x ∈ dedupNames l then dedupNames l else dedupNames l ++ [x] := by
      unfold dedupNames
      rw [List.foldl_append]
      rfl
    rw [hsnoc]
    by_cases hx : x ∈ dedupNames l
    · rw [if_pos hx]
      refine ih.imp_of_mem ?_
      intro a b ha hb hab
      have ha' : a ∈ l := (mem_dedupNames l a).mp ha
      have hb' : b ∈ l := (mem_dedupNames l b).mp hb
      rw [fstIdx_append_left l [x] a ha', fstIdx_append_left l [x] b hb']
      exact hab
    · rw [if_neg hx]
      have hx' : x ∉ l := fun hh => hx ((mem_dedupNames l x).mpr hh)
      rw [List.pairwise_append]
      refine ⟨?_, List.pairwise_singleton _ x, ?_⟩
      · refine ih.imp_of_mem ?_
        intro a b ha hb hab
        have ha' : a ∈ l := (mem_dedupNames l a).mp ha
        have hb' : b ∈ l := (mem_dedupNames l b).mp hb
        rw [fstIdx_append_left l [x] a ha', fstIdx_append_left l [x] b hb']
        exact hab
      · intro a ha b hb
        rw [List.mem_singleton] at hb
        subst hb
        have ha' : a ∈ l := (mem_dedupNames l a).mp ha
        rw [fstIdx_append_left l [b] a ha', fstIdx_append_self l b hx']
        exact fstIdx_lt_length l a ha'

theorem findGroup_groupsFold (items : List Detection) :
    ∀ (acc : List (Str × Group)) (n : Str),
      findGroup (groupsFold items acc) n =
        match findGroup acc n with
        | some g =>
            some { count := g.count + (items.filter fun d => decide (d.name = n)).length,
                   confidence := ((items.filter fun d => decide (d.name = n)).map
                     fun d => d.confidence).foldl max g.confidence,
                   description := g.description }
        | none =>
            match items.filter fun d => decide (d.name = n) with
            | [] => none
            | d :: ds =>
              some { count := (d :: ds).length,
                     confidence := ((d :: ds).map fun x => x.confidence).foldl max 0,
                     description := d.description } := by
  induction items with
  | nil =>
    intro acc n
    cases hacc : findGroup acc n with
    | none => simp [groupsFold, hacc]
    | some g => simp [groupsFold, hacc]
  | cons d rest ih =>
    intro acc n
    rw [show groupsFold (d :: rest) acc =
      groupsFold rest (updateGroups acc d.name d.description d.confidence) from rfl]
    rw [ih, findGroup_updateGroups]
    by_cases hn : n = d.name
    · rw [if_pos hn]
      subst hn
      cases hacc : findGroup acc d.name with
      | some g =>
        simp [List.filter_cons, List.foldl_cons]; omega
      | none =>
        simp [List.filter_cons, List.foldl_cons]; omega
    · rw [if_neg hn]
      have hdec : (decide (d.name = n)) = false :=
        decide_eq_false fun hh => hn hh.symm
      simp only [List.filter_cons, hdec, Bool.false_eq_true, if_false]

theorem groupKeys_groupsFold (items : List Detection) :
    ∀ acc, groupKeys (groupsFold items acc) =
      (items.map fun d => d.name).foldl
        (fun ks n => if n ∈ ks then ks else ks ++ [n]) (groupKeys acc) := by
  induction items with
  | nil =>
    intro acc
    rfl
  | cons d rest ih =>
    intro acc
    rw [show groupsFold (d :: rest) acc =
      groupsFold rest (updateGroups acc d.name d.description d.confidence) from rfl]
    rw [ih, List.map_cons, List.foldl_cons, groupKeys_updateGroups]

theorem summaryStep_fold (l : List Detection) :
    ∀ (b f : List (Str × Group)),
      (l.foldl summaryStep (b, f)).1 =
        groupsFold (l.filter fun d => decide (d.type = PatternType.bias)) b ∧
      (l.foldl summaryStep (b, f)).2 =
        groupsFold (l.filter fun d => decide (d.type = PatternType.fallacy)) f := by
  induction l with
  | nil =>
    intro b f
    exact ⟨rfl, rfl⟩
  | cons d rest ih =>
    intro b f
    rw [List.foldl_cons]
    cases hd : d.type with
    | bias =>
      have hstep : summaryStep (b, f) d =
          (updateGroups b d.name d.description d.confidence, f) := by
        simp [summaryStep, hd]
      rw [hstep]
      have h1 : (decide (d.type = PatternType.bias)) = true := by simp [hd]
      have h2 : (decide (d.type = PatternType.fallacy)) = false := by simp [hd]
      constructor
      · rw [List.filter_cons, h1, if_pos rfl]
        exact (ih _ _).1
      · rw [List.filter_cons, h2]
        simp only [Bool.false_eq_true, if_false]
        exact (ih _ _).2
    | fallacy =>
      have hstep : summaryStep (b, f) d =
          (b, updateGroups f d.name d.description d.confidence) := by
        simp [summaryStep, hd]
      rw [hstep]
      have h1 : (decide (d.type = PatternType.bias)) = false := by simp [hd]
      have h2 : (decide (d.type = PatternType.fallacy)) = true := by simp [hd]
      constructor
      · rw [List.filter_cons, h1]
        simp only [Bool.false_eq_true, if_false]
        exact (ih _ _).1
      · rw [List.filter_cons, h2, if_pos rfl]
        exact (ih _ _).2

theorem foldl_max_aux (cs : List ℚ) :
    ∀ a : ℚ, (cs.foldl max a = a ∨ cs.foldl max a ∈ cs) ∧
      a ≤ cs.foldl max a ∧ ∀ c ∈ cs, c ≤ cs.foldl max a := by
  induction cs with
  | nil =>
    intro a
    exact ⟨Or.inl rfl, le_refl a, fun c hc => absurd hc (List.not_mem_nil c)⟩
  | cons c cs ih =>
    intro a
    rw [List.foldl_cons]
    obtain ⟨hmem, hle, hub⟩ := ih (max a c)
    refine ⟨?_, ?_, ?_⟩
    · rcases hmem with h | h
      · rcases max_choice a c with h' | h'
        · exact Or.inl (by rw [h, h'])
        · exact Or.inr (by rw [h, h']; exact List.mem_cons_self c cs)
      · exact Or.inr (List.mem_cons_of_mem c h)
    · exact le_trans (le_max_left a c) hle
    · intro x hx
      rcases List.mem_cons.mp hx with h | h
      · subst h
        exact le_trans (le_max_right a x) hle
      · exact hub x h

theorem foldl_max_spec (cs : List ℚ) (hnn : ∀ c ∈ cs, 0 ≤ c) (hne : cs ≠ []) :
    cs.foldl max 0 ∈ cs ∧ ∀ c ∈ cs, c ≤ cs.foldl max 0 := by
  cases cs with
  | nil => exact absurd rfl hne
  | cons c cs' =>
    rw [List.foldl_cons]
    rw [max_eq_right (hnn c (List.mem_cons_self c cs'))]
    obtain ⟨hmem, hle, hub⟩ := foldl_max_aux cs' c
    refine ⟨?_, ?_⟩
    · rcases hmem with h | h
      · rw [h]
        exact List.mem_cons_self c cs'
      · exact List.mem_cons_of_mem c h
    · intro x hx
      rcases List.mem_cons.mp hx with h | h
      · subst h
        exact hle
      · exact hub x h

/-- The order the sorted summary satisfies: strictly greater count first,
ties ordered by the auxiliary relation `T`. -/
def sortR (T : PatternSummary → PatternSummary → Prop) (a b : PatternSummary) : Prop :=
  b.count < a.count ∨ (a.count = b.count ∧ T a b)

theorem insertByCount_spec (T : PatternSummary → PatternSummary → Prop)
    (x : PatternSummary) :
    ∀ acc : List PatternSummary,
      acc.Pairwise (sortR T) →
      acc.Pairwise (fun a b => b.count ≤ a.count) →
      (∀ y ∈ acc, T y x) →
      (insertByCount x acc).Pairwise (sortR T) ∧
      (insertByCount x acc).Pairwise (fun a b => b.count ≤ a.count) ∧
      (insertByCount x acc).Perm (x :: acc) := by
  intro acc
  induction acc with
  | nil =>
    intro _ _ _
    exact ⟨List.pairwise_singleton _ x, List.pairwise_singleton _ x,
      List.Perm.refl [x]⟩
  | cons y ys ih =>
    intro hR hC hT
    unfold insertByCount
    by_cases hyx : y.count ≥ x.count
    · rw [if_pos hyx]
      obtain ⟨hRy, hRtail⟩ := List.pairwise_cons.mp hR
      obtain ⟨hCy, hCtail⟩ := List.pairwise_cons.mp hC
      obtain ⟨i1, i2, i3⟩ := ih hRtail hCtail
        fun z hz => hT z (List.mem_cons_of_mem y hz)
      refine ⟨List.pairwise_cons.mpr ⟨?_, i1⟩, List.pairwise_cons.mpr ⟨?_, i2⟩, ?_⟩
      · intro z hz
        rcases List.mem_cons.mp (i3.mem_iff.mp hz) with h | h
        · subst h
          rcases lt_or_eq_of_le hyx with hlt | heq
          · exact Or.inl hlt
          · exact Or.inr ⟨heq.symm, hT y (List.mem_cons_self y ys)⟩
        · exact hRy z h
      · intro z hz
        rcases List.mem_cons.mp (i3.mem_iff.mp hz) with h | h
        · subst h
          exact hyx
        · exact hCy z h
      · exact (i3.cons y).trans (List.Perm.swap x y ys)
    · rw [if_neg hyx]
      push_neg at hyx
      refine ⟨List.pairwise_cons.mpr ⟨?_, hR⟩, List.pairwise_cons.mpr ⟨?_, hC⟩,
        List.Perm.refl _⟩
      · intro z hz
        rcases List.mem_cons.mp hz with h | h
        · subst h
          exact Or.inl hyx
        · exact Or.inl (lt_of_le_of_lt ((List.pairwise_cons.mp hC).1 z h) hyx)
      · intro z hz
        rcases List.mem_cons.mp hz with h | h
        · subst h
          exact le_of_lt hyx
        · exact le_trans ((List.pairwise_cons.mp hC).1 z h) (le_of_lt hyx)

theorem sortFold_spec (T : PatternSummary → PatternSummary → Prop) :
    ∀ (l acc : List PatternSummary),
      acc.Pairwise (sortR T) →
      acc.Pairwise (fun a b => b.count ≤ a.count) →
      (∀ y ∈ acc, ∀ x ∈ l, T y x) →
      l.Pairwise T →
      (l.foldl (fun a x => insertByCount x a) acc).Pairwise (sortR T) ∧
      (l.foldl (fun a x => insertByCount x a) acc).Pairwise
        (fun a b => b.count ≤ a.count) ∧
      (l.foldl (fun a x => insertByCount x a) acc).Perm (acc ++ l) := by
  intro l
  induction l with
  | nil =>
    intro acc h1 h2 _ _
    refine ⟨h1, h2, ?_⟩
    rw [List.foldl_nil, List.append_nil]
  | cons x rest ih =>
    intro acc h1 h2 hT hTl
    rw [List.foldl_cons]
    obtain ⟨hTx, hTrest⟩ := List.pairwise_cons.mp hTl
    obtain ⟨i1, i2, i3⟩ := insertByCount_spec T x acc h1 h2
      fun y hy => hT y hy x (List.mem_cons_self x rest)
    have hT' : ∀ y ∈ insertByCount x acc, ∀ z ∈ rest, T y z := by
      intro y hy z hz
      rcases List.mem_cons.mp (i3.mem_iff.mp hy) with h | h
      · subst h
        exact hTx z hz
      · exact hT y h z (List.mem_cons_of_mem x hz)
    obtain ⟨j1, j2, j3⟩ := ih (insertByCount x acc) i1 i2 hT' hTrest
    exact ⟨j1, j2, j3.trans ((i3.append_right rest).trans List.perm_middle.symm)⟩

theorem summary_category_spec (items : List Detection)
    (hc : ∀ d ∈ items, 0 ≤ d.confidence) :
    (∀ n, (∃ e ∈ sortByCountDesc (summaryEntries (groupsFold items [])), e.name = n) ↔
        ∃ d ∈ items, d.name = n) ∧
    (∀ e ∈ sortByCountDesc (summaryEntries (groupsFold items [])),
        e.count = (items.filter fun d => decide (d.name = e.name)).length ∧
        (∃ d ∈ items, d.name = e.name ∧ d.confidence = e.confidence) ∧
        (∀ d ∈ items, d.name = e.name → d.confidence ≤ e.confidence)) ∧
    (sortByCountDesc (summaryEntries (groupsFold items []))).Pairwise
      (fun a b => b.count < a.count ∨ (a.count = b.count ∧
        fstIdx (items.map fun d => d.name) a.name <
          fstIdx (items.map fun d => d.name) b.name)) := by
  have hkeys : groupKeys (groupsFold items []) =
      dedupNames (items.map fun d => d.name) := by
    rw [groupKeys_groupsFold items []]
    rfl
  have hnodup : (groupKeys (groupsFold items [])).Nodup := by
    rw [hkeys]
    exact nodup_dedup_fold _ [] List.nodup_nil
  have hTpre : (summaryEntries (groupsFold items [])).Pairwise
      (fun a b => fstIdx (items.map fun d => d.name) a.name <
        fstIdx (items.map fun d => d.name) b.name) := by
    have hp := pairwise_fstIdx_dedup (items.map fun d => d.name)
    rw [← hkeys] at hp
    unfold groupKeys at hp
    rw [List.pairwise_map] at hp
    unfold summaryEntries
    rw [List.pairwise_map]
    exact hp.imp fun h => h
  obtain ⟨hsR, _, hperm⟩ := sortFold_spec _ (summaryEntries (groupsFold items [])) []
    List.Pairwise.nil List.Pairwise.nil
    (fun y hy => absurd hy (List.not_mem_nil y)) hTpre
  refine ⟨?_, ?_, ?_⟩
  · intro n
    constructor
    · rintro ⟨e, he, hen⟩
      have he' : e ∈ summaryEntries (groupsFold items []) := by
        simpa using hperm.mem_iff.mp he
      obtain ⟨⟨m, g⟩, hmg, hegg⟩ := List.mem_map.mp he'
      subst hegg
      have hkm : m ∈ groupKeys (groupsFold items []) := mem_groupKeys_of_mem hmg
      rw [hkeys] at hkm
      obtain ⟨d, hd, hdn⟩ :=
        List.mem_map.mp ((mem_dedupNames _ _).mp hkm)
      exact ⟨d, hd, hdn.trans hen⟩
    · rintro ⟨d, hd, hdn⟩
      have h2 : n ∈ groupKeys (groupsFold items []) := by
        rw [hkeys]
        exact (mem_dedupNames _ _).mpr (List.mem_map.mpr ⟨d, hd, hdn⟩)
      obtain ⟨⟨m, g⟩, hmg, hmn⟩ := List.mem_map.mp h2
      refine ⟨⟨m, g.description, g.count, g.confidence⟩, ?_, hmn⟩
      have hment : (⟨m, g.description, g.count, g.confidence⟩ : PatternSummary) ∈
          summaryEntries (groupsFold items []) :=
        List.mem_map.mpr ⟨(m, g), hmg, rfl⟩
      exact hperm.mem_iff.mpr (by simpa using hment)
  · intro e he
    have he' : e ∈ summaryEntries (groupsFold items []) := by
      simpa using hperm.mem_iff.mp he
    obtain ⟨⟨m, g⟩, hmg, hegg⟩ := List.mem_map.mp he'
    subst hegg
    have hfg : findGroup (groupsFold items []) m = some g :=
      findGroup_of_mem_nodup _ hnodup m g hmg
    rw [findGroup_groupsFold items [] m] at hfg
    simp only [findGroup] at hfg
    cases hflt : items.filter fun d => decide (d.name = m) with
    | nil =>
      rw [hflt] at hfg
      simp at hfg
    | cons d₀ ds₀ =>
      rw [hflt] at hfg
      have hg : g = { count := (d₀ :: ds₀).length,
                      confidence := ((d₀ :: ds₀).map fun x => x.confidence).foldl max 0,
                      description := d₀.description } := by
        injection hfg with h'
        exact h'.symm
      subst hg
      have hnn : ∀ c ∈ (d₀ :: ds₀).map fun x => x.confidence, 0 ≤ c := by
        intro c hcm
        obtain ⟨x, hx, hxc⟩ := List.mem_map.mp hcm
        have hx' : x ∈ items.filter fun d => decide (d.name = m) := by
          rw [hflt]
          exact hx
        exact hxc ▸ hc x (List.mem_filter.mp hx').1
      refine ⟨?_, ?_, ?_⟩
      · rfl
      · obtain ⟨hmem, _⟩ := foldl_max_spec _ hnn (by simp)
        obtain ⟨x, hx, hxc⟩ := List.mem_map.mp hmem
        have hx' : x ∈ items.filter fun d => decide (d.name = m) := by
          rw [hflt]
          exact hx
        obtain ⟨hxi, hxd⟩ := List.mem_filter.mp hx'
        exact ⟨x, hxi, of_decide_eq_true hxd, hxc⟩
      · intro d hd hdname
        have hdf : d ∈ items.filter fun dd => decide (dd.name = m) :=
          List.mem_filter.mpr ⟨hd, decide_eq_true hdname⟩
        rw [hflt] at hdf
        exact (foldl_max_spec _ hnn (by simp)).2 _
          (List.mem_map.mpr ⟨d, hdf, rfl⟩)
  · exact hsR.imp fun h => h

/-- All detections of a run, in source order. -/
def allDetectionsOf (ds : List SentenceDetection) : List Detection :=
  ds.flatMap fun sd => sd.detections

/-- The bias-category detections of a run. -/
def biasItems (ds : List SentenceDetection) : List Detection :=
  (allDetectionsOf ds).filter fun d => decide (d.type = PatternType.bias)

/-- The fallacy-category detections of a run. -/
def fallacyItems (ds : List SentenceDetection) : List Detection :=
  (allDetectionsOf ds).filter fun d => decide (d.type = PatternType.fallacy)

theorem biasesFound_eq (ds : List SentenceDetection) :
    (generateSummary ds).biasesFound =
      sortByCountDesc (summaryEntries (groupsFold (biasItems ds) [])) := by
  unfold generateSummary
  by_cases hds : ds.isEmpty = true
  · rw [if_pos hds]
    rw [List.isEmpty_iff.mp hds]
    rfl
  · rw [if_neg hds]
    show sortByCountDesc (summaryEntries
      ((allDetectionsOf ds).foldl summaryStep ([], [])).1) = _
    rw [(summaryStep_fold (allDetectionsOf ds) [] []).1]
    rfl

theorem fallaciesFound_eq (ds : List SentenceDetection) :
    (generateSummary ds).fallaciesFound =
      sortByCountDesc (summaryEntries (groupsFold (fallacyItems ds) [])) := by
  unfold generateSummary
  by_cases hds : ds.isEmpty = true
  · rw [if_pos hds]
    rw [List.isEmpty_iff.mp hds]
    rfl
  · rw [if_neg hds]
    show sortByCountDesc (summaryEntries
      ((allDetectionsOf ds).foldl summaryStep ([], [])).2) = _
    rw [(summaryStep_fold (allDetectionsOf ds) [] []).2]
    rfl

/-- C5: empty or absent input yields two empty lists; otherwise, per
category, the summary has exactly one entry per distinct detection name,
each entry carrying the occurrence count and the maximum confidence of its
occurrences, and both lists are sorted by descending count with ties kept in
first-encountered order. -/
theorem generateSummary_spec :
    generateSummaryOpt none = { biasesFound := [], fallaciesFound := [] } ∧
    generateSummary [] = { biasesFound := [], fallaciesFound := [] } ∧
    ∀ ds : List SentenceDetection,
      (∀ sd ∈ ds, ∀ d ∈ sd.detections, 0 ≤ d.confidence) →
      ((∀ n, (∃ e ∈ (generateSummary ds).biasesFound, e.name = n) ↔
          ∃ d ∈ biasItems ds, d.name = n) ∧
        (∀ e ∈ (generateSummary ds).biasesFound,
          e.count = ((biasItems ds).filter fun d => decide (d.name = e.name)).length ∧
          (∃ d ∈ biasItems ds, d.name = e.name ∧ d.confidence = e.confidence) ∧
          (∀ d ∈ biasItems ds, d.name = e.name → d.confidence ≤ e.confidence)) ∧
        (generateSummary ds).biasesFound.Pairwise
          (fun a b => b.count < a.count ∨ (a.count = b.count ∧
            fstIdx ((biasItems ds).map fun d => d.name) a.name <
              fstIdx ((biasItems ds).map fun d => d.name) b.name))) ∧
      ((∀ n, (∃ e ∈ (generateSummary ds).fallaciesFound, e.name = n) ↔
          ∃ d ∈ fallacyItems ds, d.name = n) ∧
        (∀ e ∈ (generateSummary ds).fallaciesFound,
          e.count = ((fallacyItems ds).filter fun d => decide (d.name = e.name)).length ∧
          (∃ d ∈ fallacyItems ds, d.name = e.name ∧ d.confidence = e.confidence) ∧
          (∀ d ∈ fallacyItems ds, d.name = e.name → d.confidence ≤ e.confidence)) ∧
        (generateSummary ds).fallaciesFound.Pairwise
          (fun a b => b.count < a.count ∨ (a.count = b.count ∧
            fstIdx ((fallacyItems ds).map fun d => d.name) a.name <
              fstIdx ((fallacyItems ds).map fun d => d.name) b.name))) := by
  refine ⟨rfl, rfl, ?_⟩
  intro ds hconf
  have hconf' : ∀ d ∈ allDetectionsOf ds, 0 ≤ d.confidence := by
    intro d hd
    obtain ⟨sd, hsd, hdd⟩ := List.mem_flatMap.mp hd
    exact hconf sd hsd d hdd
  constructor
  · rw [biasesFound_eq ds]
    exact summary_category_spec (biasItems ds)
      fun d hd => hconf' d (List.mem_filter.mp hd).1
  · rw [fallaciesFound_eq ds]
    exact summary_category_spec (fallacyItems ds)
      fun d hd => hconf' d (List.mem_filter.mp hd).1

/-- Concrete run for the C5 witness: two sentences, three bias detections of
one name across them plus one fallacy. -/
def c5ds : List SentenceDetection :=
  [{ sentence := "s1".toList, sentenceIndex := 0,
     detections := [
       { type := .bias, name := "Confirmation Bias".toList,
         description := "cb".toList, «matches» := [], confidence := 1 },
       { type := .fallacy, name := "Ad Hominem".toList,
         description := "ah".toList, «matches» := [], confidence := 2 }] },
   { sentence := "s2".toList, sentenceIndex := 1,
     detections := [
       { type := .bias, name := "Confirmation Bias".toList,
         description := "cb".toList, «matches» := [], confidence := 3 }] }]

/-- The expected top bias entry of the witness run. -/
def c5entry : PatternSummary :=
  { name := "Confirmation Bias".toList, description := "cb".toList,
    count := 2, confidence := 3 }

/-- C5, witness: the concrete run produces the grouped entry with occurrence
count `2` and maximum confidence, and the count matches the per-name filter. -/
theorem generateSummary_spec_witness :
    (∀ sd ∈ c5ds, ∀ d ∈ sd.detections, 0 ≤ d.confidence) ∧
    c5entry ∈ (generateSummary c5ds).biasesFound ∧
    c5entry.count =
      ((biasItems c5ds).filter fun d => decide (d.name = c5entry.name)).length ∧
    (∀ d ∈ biasItems c5ds, d.name = c5entry.name → d.confidence ≤ c5entry.confidence) :=
  ⟨by decide, by decide,
   ((generateSummary_spec.2.2 c5ds (by decide)).1.2.1 c5entry (by decide)).1,
   ((generateSummary_spec.2.2 c5ds (by decide)).1.2.1 c5entry (by decide)).2.2⟩

end BiasFallacy
